import Mathlib

/-!
# HyperXO (Ultimate Tic-Tac-Toe): verification of the rules engine and search engine

A shallow embedding of `src/hyperxo/game.py` and `src/hyperxo/ai.py`.

Conventions of the embedding:
* Python `'X'`/`'O'`/`' '` cells become `Option Player` (`none` = empty).
* Python lists become `List`; `enumerate` loops become index-threading
  recursive functions (`openFrom`, `movesFrom`, `cellsHash`, `boardsHash`).
* Python list indexing `xs[i]` with an `int` index is modelled by `pyIndex`
  (negative indices wrap, a hard out-of-range raises `IndexError`).
* Exceptions become `Except` / `Option err × state` values: `play_move`
  returns the error together with the state at the time the exception is
  raised, so theorems can speak about partial mutation.
* The Zobrist table of `random.Random(7777)` 64-bit draws is an opaque
  parameter (`Zobrist` structure of key functions): no claim depends on the
  concrete key values, only on how they are combined.  Concrete
  instantiations used in counterexamples (`zeroZobrist`, `powZobrist`) are
  stated where they are used; `powZobrist` assigns each feature a distinct
  power of two, so XOR-accumulated hashes are collision-free, matching the
  (probabilistic) intent of the 64-bit random table.
* Python floats in the evaluation/heuristics are modelled as exact
  rationals (`ℚ`); `±math.inf` becomes the `Score` type.  All constants in
  the source (`0.4`, `1.5`, `10_000.0`, …) are exactly representable, and
  no claim in scope depends on rounding of float sums.
-/

namespace HyperXO

/- The Batteries rational primitives are `irreducible` for `simp`
hygiene; computations in this development evaluate them. -/
attribute [local semireducible] Rat.add Rat.sub Rat.mul Rat.inv

/-- A player mark, `'X'` or `'O'` in the source. -/
inductive Player where
  | X : Player
  | O : Player
deriving DecidableEq, Repr

/-- `"O" if player == "X" else "X"`. -/
def Player.other : Player → Player
  | .X => .O
  | .O => .X

/-- A cell of a small board: `' '` (empty) is `none`. -/
abbrev Cell := Option Player

/-- `WINNING_LINES` from `game.py`. -/
def winningLines : List (Nat × Nat × Nat) :=
  [(0, 1, 2), (3, 4, 5), (6, 7, 8), (0, 3, 6), (1, 4, 7), (2, 5, 8), (0, 4, 8), (2, 4, 6)]

/-- Python list indexing semantics for `xs[i]` with `i : int` on a list of
length `n`: `0 ≤ i < n` is direct, `-n ≤ i < 0` wraps to `i + n`, anything
else raises `IndexError` (modelled as `none`). -/
def pyIndex (n : Nat) (i : Int) : Option Nat :=
  if 0 ≤ i ∧ i < (n : Int) then some i.toNat
  else if -(n : Int) ≤ i ∧ i < 0 then some (i + n).toNat
  else none

/-- `SmallBoard` from `game.py`: one 3×3 board. -/
structure SmallBoard where
  cells : List Cell
  winner : Option Player
  drawn : Bool
deriving DecidableEq, Repr

/-- A fresh small board: nine empty cells, no winner, not drawn. -/
def emptyBoard : SmallBoard :=
  { cells := List.replicate 9 none, winner := none, drawn := false }

instance : Inhabited SmallBoard := ⟨emptyBoard⟩

/-- `SmallBoard.is_full`. -/
def SmallBoard.is_full (b : SmallBoard) : Bool :=
  b.cells.all (fun c => c.isSome)

/-- First winning line of the cell array, scanning `WINNING_LINES` in order:
the loop body of `SmallBoard._update_state`. -/
def lineWinner (cells : List Cell) : Option Player :=
  (winningLines.filterMap (fun t =>
    match cells.getD t.1 none with
    | some v =>
      if cells.getD t.2.1 none = some v ∧ cells.getD t.2.2 none = some v then some v else none
    | none => none)).head?

/-- `SmallBoard._update_state`: detect a local winner, else a local draw. -/
def SmallBoard.update_state (b : SmallBoard) : SmallBoard :=
  match lineWinner b.cells with
  | some v => { b with winner := some v, drawn := false }
  | none => if b.is_full then { b with winner := none, drawn := true } else b

/-- Failure modes of `SmallBoard.place`: the two `ValueError`s raised by the
source, plus the `IndexError` Python itself raises on a hard out-of-range
index. -/
inductive PlaceError where
  | alreadyResolved : PlaceError
  | cellOccupied : PlaceError
  | indexOutOfBounds : PlaceError
deriving DecidableEq, Repr

/-- `SmallBoard.place(player, idx)`.  The source checks resolution first,
then reads `self.cells[idx]` (which is where a bad index raises), then
mutates and recomputes the local state. -/
def SmallBoard.place (b : SmallBoard) (p : Player) (idx : Int) : Except PlaceError SmallBoard :=
  if b.winner.isSome ∨ b.drawn then .error .alreadyResolved
  else
    match pyIndex b.cells.length idx with
    | none => .error .indexOutOfBounds
    | some i =>
      if (b.cells.getD i none).isSome then .error .cellOccupied
      else .ok (SmallBoard.update_state { b with cells := b.cells.set i (some p) })

/-- `not b.winner and not b.drawn and not b.is_full()`: the `live` predicate
used by `available_moves` and the forced-board update. -/
def SmallBoard.liveB (b : SmallBoard) : Bool :=
  b.winner.isNone && !b.drawn && !b.is_full

/-- The Zobrist key tables of `game.py`, abstracted over the concrete
64-bit values drawn from `random.Random(7777)`. -/
structure Zobrist where
  piece_key : Nat → Nat → Player → Nat
  stm_key : Nat
  nbi_key : Option Nat → Nat

/-- `HyperXOGame` from `game.py`.  The shared `_zobrist` table is passed to
the operations as a parameter instead of being stored in the state. -/
structure Game where
  boards : List SmallBoard
  current_player : Player
  next_board_index : Option Nat
  winner : Option Player
  drawn : Bool
  zkey : Nat
deriving DecidableEq, Repr

/-- `enumerate(b.cells)` filtered to empty cells, indices ascending,
starting at index `j`. -/
def openFrom (j : Nat) : List Cell → List Nat
  | [] => []
  | c :: cs => (if c = none then [j] else []) ++ openFrom (j + 1) cs

/-- The open cell indices of a small board, ascending. -/
def openCells (b : SmallBoard) : List Nat :=
  openFrom 0 b.cells

/-- `enumerate(self.boards)` producing the `(bigIndex, cellIndex)` moves of
every live board, board index starting at `n`. -/
def movesFrom (n : Nat) : List SmallBoard → List (Nat × Nat)
  | [] => []
  | b :: bs =>
    (if b.liveB then (openCells b).map (fun j => (n, j)) else []) ++ movesFrom (n + 1) bs

/-- The free-choice move list (every live board, boards ascending, cells
ascending). -/
def Game.allMoves (g : Game) : List (Nat × Nat) :=
  movesFrom 0 g.boards

/-- `live(i)` of `HyperXOGame.available_moves`. -/
def Game.liveIdx (g : Game) (i : Nat) : Bool :=
  (g.boards.getD i emptyBoard).liveB

/-- `HyperXOGame.available_moves`: if the forced board is live, only its
open cells; otherwise all open cells of all live boards. -/
def Game.available_moves (g : Game) : List (Nat × Nat) :=
  match g.next_board_index with
  | some i =>
    if g.liveIdx i then (openCells (g.boards.getD i emptyBoard)).map (fun j => (i, j))
    else g.allMoves
  | none => g.allMoves

/-- The macro summary symbols of `big_board_state`: `'X'`, `'O'`, `'G'`
(drawn, grey), `'.'` (ongoing). -/
inductive BigCell where
  | bx : BigCell
  | bo : BigCell
  | grey : BigCell
  | ongoing : BigCell
deriving DecidableEq, Repr

/-- The symbol a captured board shows for its winner. -/
def BigCell.ofPlayer : Player → BigCell
  | .X => .bx
  | .O => .bo

/-- `'X'`/`'O'` symbols carry a player; `'G'`/`'.'` do not. -/
def BigCell.player? : BigCell → Option Player
  | .bx => some .X
  | .bo => some .O
  | .grey => none
  | .ongoing => none

/-- Per-board case of `big_board_state`. -/
def SmallBoard.bigCell (b : SmallBoard) : BigCell :=
  if b.winner = some Player.X then .bx
  else if b.winner = some Player.O then .bo
  else if b.drawn then .grey
  else .ongoing

/-- `HyperXOGame.big_board_state`. -/
def Game.big_board_state (g : Game) : List BigCell :=
  g.boards.map SmallBoard.bigCell

/-- One line of the macro-winner scan in `_update_global_state`:
`bb[a] in ("X","O") and bb[a] == bb[b] == bb[c]`. -/
def lineWinnerBig (bb : List BigCell) (t : Nat × Nat × Nat) : Option Player :=
  match (bb.getD t.1 .ongoing).player? with
  | some p =>
    if bb.getD t.2.1 .ongoing = bb.getD t.1 .ongoing ∧
        bb.getD t.2.2 .ongoing = bb.getD t.1 .ongoing then some p
    else none
  | none => none

/-- First macro winning line, scanning `WINNING_LINES` in order. -/
def bigWinner (bb : List BigCell) : Option Player :=
  (winningLines.filterMap (lineWinnerBig bb)).head?

/-- `HyperXOGame._update_global_state`: set the macro winner from the
summary, else set the macro draw when no move is available.  Note the draw
check runs `available_moves` with the *old* forced board (the caller
updates `next_board_index` afterwards). -/
def Game.update_global_state (g : Game) : Game :=
  match bigWinner g.big_board_state with
  | some v => { g with winner := some v, drawn := false }
  | none => if g.available_moves.isEmpty then { g with winner := none, drawn := true } else g

/-- Failure modes of `HyperXOGame.play_move`: the two `ValueError`s of the
source, plus Python index errors from `self.boards[big]` and from
`SmallBoard.place` (unreachable through the legality gate). -/
inductive MoveError where
  | gameFinished : MoveError
  | illegalMove : MoveError
  | boardsIndexOutOfBounds : MoveError
  | placeFailed : PlaceError → MoveError
deriving DecidableEq, Repr

/-- `HyperXOGame.play_move(big, cell)`.  Returns the error (if any)
together with the state at the moment the exception is raised, so that
partial-mutation questions are expressible. -/
def Game.play_move (z : Zobrist) (g : Game) (big cell : Int) : Option MoveError × Game :=
  if g.winner.isSome ∨ g.drawn then (some .gameFinished, g)
  else if (big, cell) ∈ g.available_moves.map (fun m => ((m.1 : Int), (m.2 : Int))) then
    let g1 : Game := { g with zkey := g.zkey ^^^ z.nbi_key g.next_board_index }
    match pyIndex g1.boards.length big, pyIndex 9 cell with
    | some bi, some ci =>
      match (g1.boards.getD bi emptyBoard).place g.current_player cell with
      | .error e => (some (.placeFailed e), g1)
      | .ok nb =>
        let g2 : Game :=
          { g1 with
            boards := g1.boards.set bi nb
            zkey := g1.zkey ^^^ z.piece_key bi ci g.current_player }
        let g3 := g2.update_global_state
        let nbi := if (g3.boards.getD ci emptyBoard).liveB then some ci else none
        let g4 : Game := { g3 with next_board_index := nbi, zkey := g3.zkey ^^^ z.nbi_key nbi }
        (none, { g4 with current_player := g4.current_player.other, zkey := g4.zkey ^^^ z.stm_key })
    | _, _ => (some .boardsIndexOutOfBounds, g1)
  else (some .illegalMove, g)

/-- `HyperXOGame.clone`: value copy (the hash and table are carried over,
so the clone is extensionally the same state). -/
def Game.clone (g : Game) : Game :=
  { boards := g.boards
    current_player := g.current_player
    next_board_index := g.next_board_index
    winner := g.winner
    drawn := g.drawn
    zkey := g.zkey }

/-- `HyperXOGame.zobrist_hash`. -/
def Game.zobrist_hash (g : Game) : Nat :=
  g.zkey

/-- A fresh `HyperXOGame()` after `__post_init__`: empty boards, `X` to
move, free forced board, hash seeded with the side and forced-board keys. -/
def initGame (z : Zobrist) : Game :=
  { boards := List.replicate 9 emptyBoard
    current_player := .X
    next_board_index := none
    winner := none
    drawn := false
    zkey := 0 ^^^ z.nbi_key none }

/-! ## Reachability and well-formedness -/

/-- One call on a `HyperXOGame` object: a `play_move` or a `clone`. -/
inductive GameOp where
  | play : Int → Int → GameOp
  | copy : GameOp

/-- Run a sequence of calls from a state; `none` if any `play_move`
raises. -/
def runOps (z : Zobrist) : Game → List GameOp → Option Game
  | g, [] => some g
  | g, GameOp.play b c :: ops =>
    match g.play_move z b c with
    | (none, g') => runOps z g' ops
    | (some _, _) => none
  | g, GameOp.copy :: ops => runOps z g.clone ops

/-- Int-pair move lists as op lists. -/
def playOps (ms : List (Int × Int)) : List GameOp :=
  ms.map (fun m => GameOp.play m.1 m.2)

/-- A state is reachable when some sequence of successful `play_move`s and
`clone`s produces it from `HyperXOGame()`. -/
def Reachable (z : Zobrist) (g : Game) : Prop :=
  ∃ ops, runOps z (initGame z) ops = some g

/-- Bound on a stored forced-board index. -/
def nbiBound : Option Nat → Prop
  | some i => i < 9
  | none => True

instance nbiBound.decide : ∀ o, Decidable (nbiBound o)
  | some i => inferInstanceAs (Decidable (i < 9))
  | none => inferInstanceAs (Decidable True)

/-- Shape well-formedness of a `HyperXOGame`: nine boards of nine cells and
an in-range forced-board index.  Python does not enforce this, but every
state the constructor and `play_move` can produce satisfies it; it is the
Lean rendering of the `GameState` data model. -/
def Game.WF (g : Game) : Prop :=
  g.boards.length = 9 ∧ (∀ b ∈ g.boards, b.cells.length = 9) ∧ nbiBound g.next_board_index

instance (g : Game) : Decidable g.WF :=
  inferInstanceAs (Decidable (_ ∧ _ ∧ _))

/-- The all-zero key table: usable wherever a claim does not depend on hash
values. -/
def zeroZobrist : Zobrist :=
  ⟨fun _ _ _ => 0, 0, fun _ => 0⟩

/-- A collision-free stand-in for the 64-bit random table: every feature
(piece at a cell, side to move, forced board) gets its own bit, so XOR
accumulations of distinct feature sets never collide — matching the
vanishingly-small collision probability of the real table on small search
trees. -/
def powZobrist : Zobrist :=
  { piece_key := fun bi ci p => 2 ^ (2 * (9 * bi + ci) + (match p with | .X => 0 | .O => 1))
    stm_key := 2 ^ 162
    nbi_key := fun o => 2 ^ (163 + (match o with | some i => i | none => 9)) }

/-! ## The search engine (`ai.py`) -/

/-- Python float search values: finite scores are exact rationals, and the
`±math.inf` window sentinels are explicit. -/
inductive Score where
  | negInf : Score
  | fin : ℚ → Score
  | posInf : Score
deriving DecidableEq, Repr

/-- Strict `<` on scores (total, no NaNs arise in the source). -/
def Score.blt : Score → Score → Bool
  | .negInf, .negInf => false
  | .negInf, .fin _ => true
  | .negInf, .posInf => true
  | .fin _, .negInf => false
  | .fin a, .fin b => decide (a < b)
  | .fin _, .posInf => true
  | .posInf, _ => false

/-- `a <= b` on scores. -/
def Score.ble (a b : Score) : Bool :=
  !(Score.blt b a)

/-- Python `max(a, b)`: keeps `a` on ties. -/
def maxScore (a b : Score) : Score :=
  if Score.blt a b then b else a

/-- Python `min(a, b)`: keeps `a` on ties. -/
def minScore (a b : Score) : Score :=
  if Score.blt b a then b else a

/-- `s - c` with `±inf` absorbing. -/
def Score.subC : Score → ℚ → Score
  | .negInf, _ => .negInf
  | .posInf, _ => .posInf
  | .fin q, c => .fin (q - c)

/-- `s + c` with `±inf` absorbing. -/
def Score.addC : Score → ℚ → Score
  | .negInf, _ => .negInf
  | .posInf, _ => .posInf
  | .fin q, c => .fin (q + c)

/-- Transposition-table bound kinds (`EXACT, LOWER, UPPER = 0, 1, 2`). -/
inductive Flag where
  | exact : Flag
  | lower : Flag
  | upper : Flag
deriving DecidableEq, Repr

/-- `TTEntry` from `ai.py`. -/
structure TTEntry where
  depth : Nat
  score : Score
  flag : Flag
  best_move : Option (Nat × Nat)
deriving DecidableEq, Repr

/-- The transposition table `Dict[int, TTEntry]`, as an association list
whose head shadows older entries (observationally a Python dict under
`get`/`[]=`). -/
abbrev TT := List (Nat × TTEntry)

/-- `self._tt.get(key)`. -/
def ttGet (tt : TT) (k : Nat) : Option TTEntry :=
  (tt.find? (fun e => e.1 == k)).map (fun e => e.2)

/-- `self._tt[key] = entry`. -/
def ttSet (tt : TT) (k : Nat) (v : TTEntry) : TT :=
  (k, v) :: tt

/-- `MinimaxAI._is_winning_move_local`. -/
def isWinningMoveLocal (cells : List Cell) (p : Player) (cell : Nat) : Bool :=
  if (cells.getD cell none).isSome then false
  else winningLines.any (fun t =>
    if cell = t.1 ∨ cell = t.2.1 ∨ cell = t.2.2 then
      let trio := [cells.getD t.1 none, cells.getD t.2.1 none, cells.getD t.2.2 none]
      (trio.count (some p) == 2) && (trio.count none == 1)
    else false)

/-- `MinimaxAI._two_in_a_row_threats`. -/
def twoInARowThreats (cells : List Cell) (p : Player) : Nat :=
  (winningLines.filter (fun t =>
    let trio := [cells.getD t.1 none, cells.getD t.2.1 none, cells.getD t.2.2 none]
    (trio.count (some p) == 2) && (trio.count none == 1))).length

/-- `MinimaxAI._move_heuristic`: local win/block, send quality, geometry. -/
def moveHeuristic (me : Player) (g : Game) (m : Nat × Nat) : ℚ :=
  let i := m.1
  let j := m.2
  let opp := me.other
  let board := g.boards.getD i emptyBoard
  if isWinningMoveLocal board.cells me j then 1000
  else if isWinningMoveLocal board.cells opp j then 900
  else
    let tgt := g.boards.getD j emptyBoard
    let send : ℚ :=
      if tgt.winner = some me then 6
      else if tgt.winner = some opp then -6
      else if tgt.drawn || tgt.cells.all (fun c => c.isSome) then -3
      else (3 / 2) * (twoInARowThreats tgt.cells me : ℚ) - 1 * (twoInARowThreats tgt.cells opp : ℚ)
    send + (if j = 4 then (2 : ℚ) / 5 else if j = 0 ∨ j = 2 ∨ j = 6 ∨ j = 8 then 1 / 5 else 1 / 10)

/-- One macro line of `_evaluate`: a grey board kills the line, contested
lines score 0, otherwise `±4^count`. -/
def lineTermBig (me opp : Player) (bb : List BigCell) (t : Nat × Nat × Nat) : ℚ :=
  let marks := [bb.getD t.1 .ongoing, bb.getD t.2.1 .ongoing, bb.getD t.2.2 .ongoing]
  if marks.contains BigCell.grey then 0
  else
    let m := marks.count (BigCell.ofPlayer me)
    let o := marks.count (BigCell.ofPlayer opp)
    if m ≠ 0 ∧ o ≠ 0 then 0
    else (if m ≠ 0 then ((4 : ℚ) ^ m) else 0) - (if o ≠ 0 then ((4 : ℚ) ^ o) else 0)

/-- Macro centre/corner nudges of `_evaluate`. -/
def bigGeometry (me opp : Player) (bb : List BigCell) : ℚ :=
  (if bb.getD 4 .ongoing = .ofPlayer me then (3 : ℚ) / 5
   else if bb.getD 4 .ongoing = .ofPlayer opp then -((3 : ℚ) / 5) else 0) +
  (([0, 2, 6, 8] : List Nat).map (fun k =>
    if bb.getD k .ongoing = .ofPlayer me then (3 : ℚ) / 10
    else if bb.getD k .ongoing = .ofPlayer opp then -((3 : ℚ) / 10) else 0)).sum

/-- One micro line of `_evaluate`'s per-board potential. -/
def microLineTerm (me opp : Player) (b : SmallBoard) (t : Nat × Nat × Nat) : ℚ :=
  let trio := [b.cells.getD t.1 none, b.cells.getD t.2.1 none, b.cells.getD t.2.2 none]
  (if ¬ trio.contains (some opp) then
    (if trio.count (some me) = 1 then (1 : ℚ) else if trio.count (some me) = 2 then 5 else 0)
   else 0) -
  (if ¬ trio.contains (some me) then
    (if trio.count (some opp) = 1 then (1 : ℚ) else if trio.count (some opp) = 2 then 5 else 0)
   else 0)

/-- Per-board term of `_evaluate`: capture bonus, line potential, centre
emphasis. -/
def microBoardTerm (me opp : Player) (b : SmallBoard) : ℚ :=
  if b.winner = some me then 2
  else if b.winner = some opp then -2
  else if b.drawn then 0
  else
    (winningLines.map (microLineTerm me opp b)).sum +
    (if b.cells.getD 4 none = some me then (3 : ℚ) / 10
     else if b.cells.getD 4 none = some opp then -((3 : ℚ) / 10) else 0)

/-- `MinimaxAI._evaluate`, from the engine player's perspective. -/
def evaluateQ (me : Player) (g : Game) : ℚ :=
  let opp := me.other
  if g.winner = some me then 10000
  else if g.winner = some opp then -10000
  else if g.drawn then 0
  else
    let bb := g.big_board_state
    (winningLines.map (lineTermBig me opp bb)).sum +
    bigGeometry me opp bb +
    (g.boards.map (microBoardTerm me opp)).sum

/-- Move ordering of `_minimax`: bump the stored PV move to the front, then
stable-sort by heuristic, descending (Python `sort(key=…, reverse=True)`:
ties keep their earlier relative order; insertion sort with a non-strict
descending relation realises exactly that stable order). -/
def orderedMoves (me : Player) (g : Game) (hit : Option TTEntry) : List (Nat × Nat) :=
  let moves0 := g.available_moves
  let moves1 :=
    match hit with
    | some e =>
      match e.best_move with
      | some pv => if pv ∈ moves0 then pv :: moves0.erase pv else moves0
      | none => moves0
    | none => moves0
  moves1.insertionSort (fun a b => moveHeuristic me g b ≤ moveHeuristic me g a)

/-- The transposition probe of `_minimax`: `.inl` is an early return,
`.inr` the (possibly tightened) window to search with. -/
def probeTT (e : TTEntry) (d : Nat) (alpha beta : Score) :
    Sum (Score × Option (Nat × Nat)) (Score × Score) :=
  if d ≤ e.depth then
    if e.flag = .exact then .inl (e.score, e.best_move)
    else
      let a := if e.flag = .lower then maxScore alpha e.score else alpha
      let b := if e.flag = .upper then minScore beta e.score else beta
      if Score.ble b a then .inl (e.score, e.best_move) else .inr (a, b)
  else .inr (alpha, beta)

/-- The maximizing move loop of `_minimax`.  `rec` is the one-ply-shallower
search; the final `Bool` records whether the loop broke on `alpha ≥ beta`
(pure instrumentation, discarded by the caller exactly as the source
forgets it). -/
def maxLoop (z : Zobrist)
    (rec : Game → Score → Score → TT → Except MoveError (Score × Option (Nat × Nat) × TT))
    (g : Game) :
    List (Nat × Nat) → Score → Option (Nat × Nat) → Score → Score → TT →
    Except MoveError (Score × Option (Nat × Nat) × TT × Bool)
  | [], value, best, _, _, tt => .ok (value, best, tt, false)
  | m :: ms, value, best, alpha, beta, tt =>
    match (Game.clone g).play_move z m.1 m.2 with
    | (some e, _) => .error e
    | (none, child) =>
      match rec child alpha beta tt with
      | .error e => .error e
      | .ok (score, _, tt1) =>
        let vb := if Score.blt value score then (score, some m) else (value, best)
        let alpha1 := maxScore alpha vb.1
        if Score.ble beta alpha1 then .ok (vb.1, vb.2, tt1, true)
        else maxLoop z rec g ms vb.1 vb.2 alpha1 beta tt1

/-- The minimizing move loop of `_minimax`, mirror of `maxLoop`. -/
def minLoop (z : Zobrist)
    (rec : Game → Score → Score → TT → Except MoveError (Score × Option (Nat × Nat) × TT))
    (g : Game) :
    List (Nat × Nat) → Score → Option (Nat × Nat) → Score → Score → TT →
    Except MoveError (Score × Option (Nat × Nat) × TT × Bool)
  | [], value, best, _, _, tt => .ok (value, best, tt, false)
  | m :: ms, value, best, alpha, beta, tt =>
    match (Game.clone g).play_move z m.1 m.2 with
    | (some e, _) => .error e
    | (none, child) =>
      match rec child alpha beta tt with
      | .error e => .error e
      | .ok (score, _, tt1) =>
        let vb := if Score.blt score value then (score, some m) else (value, best)
        let beta1 := minScore beta vb.1
        if Score.ble beta1 alpha then .ok (vb.1, vb.2, tt1, true)
        else minLoop z rec g ms vb.1 vb.2 alpha beta1 tt1

/-- `MinimaxAI._minimax(game, depth, alpha, beta, maximizing)`, threading
the mutable transposition table.  An error is a propagated `play_move`
exception (provably unreachable on well-formed states). -/
def minimaxAB (z : Zobrist) (me : Player) :
    Nat → Game → Score → Score → Bool → TT → Except MoveError (Score × Option (Nat × Nat) × TT)
  | 0, g, _, _, _, tt => .ok (.fin (evaluateQ me g), none, tt)
  | d + 1, g, alpha0, beta0, maximizing, tt0 =>
    if g.winner.isSome ∨ g.drawn then .ok (.fin (evaluateQ me g), none, tt0)
    else
      let key := g.zobrist_hash
      let hit := ttGet tt0 key
      let probed :=
        match hit with
        | some e => probeTT e (d + 1) alpha0 beta0
        | none => Sum.inr (alpha0, beta0)
      match probed with
      | .inl sm => .ok (sm.1, sm.2, tt0)
      | .inr ab =>
        let moves := orderedMoves me g hit
        let res :=
          if maximizing then
            maxLoop z (fun c a b t => minimaxAB z me d c a b false t) g moves
              .negInf none ab.1 ab.2 tt0
          else
            minLoop z (fun c a b t => minimaxAB z me d c a b true t) g moves
              .posInf none ab.1 ab.2 tt0
        match res with
        | .error e => .error e
        | .ok (value, best, tt2, _) =>
          let flag :=
            if maximizing then (if best.isSome then Flag.exact else Flag.lower)
            else (if best.isSome then Flag.exact else Flag.upper)
          .ok (value, best, ttSet tt2 key ⟨d + 1, value, flag, best⟩)

/-- The iterative-deepening loop of `MinimaxAI.choose`: each iteration
keeps the best move found (if any) and re-seeds the window to
`[score − 50, score + 50]`. -/
def idLoop (z : Zobrist) (me : Player) (g : Game) :
    List Nat → Score → Score → Option (Nat × Nat) → TT →
    Except MoveError (Option (Nat × Nat) × TT)
  | [], _, _, best, tt => .ok (best, tt)
  | d :: ds, alpha, beta, best, tt =>
    match minimaxAB z me d g alpha beta true tt with
    | .error e => .error e
    | .ok (score, move, tt1) =>
      idLoop z me g ds (score.subC 50) (score.addC 50)
        (match move with | some m => some m | none => best) tt1

/-- Failure modes of `MinimaxAI.choose`: the wrong-turn `ValueError`, the
no-moves `RuntimeError`, and a propagated `play_move` exception. -/
inductive ChooseError where
  | wrongTurn : ChooseError
  | noValidMoves : ChooseError
  | searchFailed : MoveError → ChooseError
deriving DecidableEq, Repr

/-- `MinimaxAI.choose` for an engine assigned `me` with configured maximum
depth `depthCfg` (`range(1, max(1, depth) + 1)`). -/
def choose (z : Zobrist) (me : Player) (depthCfg : Nat) (g : Game) :
    Except ChooseError (Nat × Nat) :=
  if g.current_player ≠ me then .error .wrongTurn
  else
    match idLoop z me g (List.range' 1 (max 1 depthCfg)) .negInf .posInf none [] with
    | .error e => .error (.searchFailed e)
    | .ok (some m, _) => .ok m
    | .ok (none, _) =>
      match g.available_moves with
      | [] => .error .noValidMoves
      | m :: _ => .ok m

/-- Plain un-pruned minimax to a fixed depth with the same evaluation and
child generation as the engine, following the specification's description
(no window, no table, no ordering). -/
def plainMinimax (z : Zobrist) (me : Player) : Nat → Game → Bool → Score
  | 0, g, _ => .fin (evaluateQ me g)
  | d + 1, g, maximizing =>
    if g.winner.isSome ∨ g.drawn then .fin (evaluateQ me g)
    else if maximizing then
      (g.available_moves.map (fun m =>
        plainMinimax z me d ((Game.clone g).play_move z m.1 m.2).2 false)).foldl maxScore .negInf
    else
      (g.available_moves.map (fun m =>
        plainMinimax z me d ((Game.clone g).play_move z m.1 m.2).2 true)).foldl minScore .posInf

/-! ## Structural lemmas about move enumeration -/

theorem liveB_spec {b : SmallBoard} (h : b.liveB = true) :
    b.winner = none ∧ b.drawn = false ∧ b.is_full = false := by
  simp only [SmallBoard.liveB, Bool.and_eq_true, Bool.not_eq_eq_eq_not, Bool.not_true,
    Option.isNone_iff_eq_none] at h
  exact ⟨h.1.1, h.1.2, h.2⟩

theorem of_mem_openFrom : ∀ {cs : List Cell} {j k : Nat}, k ∈ openFrom j cs →
    ∃ d, d < cs.length ∧ cs[d]? = some none ∧ k = j + d := by
  intro cs
  induction cs with
  | nil => intro j k h; simp [openFrom] at h
  | cons c cs ih =>
    intro j k h
    simp only [openFrom, List.mem_append] at h
    rcases h with h | h
    · by_cases hc : c = none
      · have hkj : k = j := by simpa [hc] using h
        exact ⟨0, by simp, by simp [hc], by omega⟩
      · simp [hc] at h
    · obtain ⟨d, hdl, hd, hk⟩ := ih h
      exact ⟨d + 1, by simpa using hdl, by simpa using hd, by omega⟩

theorem openFrom_ne_nil : ∀ {cs : List Cell} {j : Nat},
    cs.all (fun c => c.isSome) = false → openFrom j cs ≠ [] := by
  intro cs
  induction cs with
  | nil => intro j h; simp at h
  | cons c cs ih =>
    intro j h
    simp only [List.all_cons, Bool.and_eq_false_iff] at h
    simp only [openFrom, ne_eq, List.append_eq_nil]
    rcases h with h | h
    · have : c = none := by cases c <;> simp_all
      simp [this]
    · intro hc
      exact ih h hc.2

theorem openCells_ne_nil {b : SmallBoard} (h : b.liveB = true) : openCells b ≠ [] :=
  openFrom_ne_nil (by
    have := (liveB_spec h).2.2
    simpa [SmallBoard.is_full] using this)

theorem of_mem_movesFrom : ∀ {bs : List SmallBoard} {n : Nat} {m : Nat × Nat},
    m ∈ movesFrom n bs →
    ∃ d b, d < bs.length ∧ bs[d]? = some b ∧ b.liveB = true ∧ m.1 = n + d ∧ m.2 ∈ openCells b := by
  intro bs
  induction bs with
  | nil => intro n m h; simp [movesFrom] at h
  | cons b bs ih =>
    intro n m h
    simp only [movesFrom, List.mem_append] at h
    rcases h with h | h
    · by_cases hb : b.liveB
      · simp only [if_pos hb, List.mem_map] at h
        obtain ⟨j, hj, hm⟩ := h
        exact ⟨0, b, by simp, by simp, hb, by simp [← hm], by simpa [← hm] using hj⟩
      · simp [hb] at h
    · obtain ⟨d, b', hdl, hd, hlive, h1, h2⟩ := ih h
      exact ⟨d + 1, b', by simpa using hdl, by simpa using hd, hlive, by simp [h1]; omega, h2⟩

theorem movesFrom_eq_nil_iff : ∀ {bs : List SmallBoard} {n : Nat},
    movesFrom n bs = [] ↔ ∀ b ∈ bs, b.liveB = false := by
  intro bs
  induction bs with
  | nil => intro n; simp [movesFrom]
  | cons b bs ih =>
    intro n
    simp only [movesFrom, List.append_eq_nil, List.mem_cons]
    constructor
    · rintro ⟨h1, h2⟩ x hx
      rcases hx with rfl | hx
      · by_cases hb : x.liveB
        · rw [if_pos hb] at h1
          exact absurd (List.map_eq_nil_iff.mp h1) (openCells_ne_nil hb)
        · simpa using hb
      · exact (ih.mp h2) x hx
    · intro h
      refine ⟨?_, ih.mpr (fun x hx => h x (Or.inr hx))⟩
      rw [if_neg (by simp [h b (Or.inl rfl)])]

theorem of_mem_available_moves {g : Game} {bi ci : Nat} (hwf : g.WF)
    (h : (bi, ci) ∈ g.available_moves) :
    bi < 9 ∧ ci < 9 ∧ (g.boards.getD bi emptyBoard).liveB = true ∧
      (g.boards.getD bi emptyBoard).cells[ci]? = some none := by
  obtain ⟨h9, hcl, hnbi⟩ := hwf
  have key : ∀ b : SmallBoard, bi < 9 → g.boards[bi]? = some b → b.liveB = true →
      ci ∈ openCells b →
      bi < 9 ∧ ci < 9 ∧ (g.boards.getD bi emptyBoard).liveB = true ∧
        (g.boards.getD bi emptyBoard).cells[ci]? = some none := by
    intro b hb hsome hlive hci
    have hgd : g.boards.getD bi emptyBoard = b := by
      simp [List.getD_eq_getElem?_getD, hsome]
    have hmem : b ∈ g.boards := by
      have := List.getElem?_eq_some_iff.mp hsome
      obtain ⟨hlt, heq⟩ := this
      exact heq ▸ List.getElem_mem hlt
    obtain ⟨d, hdl, hd, hk⟩ := of_mem_openFrom hci
    have : b.cells.length = 9 := hcl b hmem
    refine ⟨hb, by omega, hgd ▸ hlive, ?_⟩
    rw [hgd]
    simpa [hk] using hd
  unfold Game.available_moves at h
  cases hn : g.next_board_index with
  | none =>
    simp only [hn] at h
    obtain ⟨d, b, hdl, hd, hlive, h1, h2⟩ := of_mem_movesFrom h
    simp only at h1 h2
    have hd9 : d < 9 := h9 ▸ hdl
    exact key b (by omega) (by simpa [h1] using hd) hlive (by simpa [h1] using h2)
  | some i =>
    simp only [hn] at h
    by_cases hl : g.liveIdx i = true
    · rw [if_pos hl] at h
      simp only [List.mem_map] at h
      obtain ⟨j, hj, hm⟩ := h
      have hi : bi = i := by simpa using congrArg Prod.fst hm.symm
      have hj' : ci = j := by simpa using congrArg Prod.snd hm.symm
      have hi9 : i < 9 := by rw [hn] at hnbi; exact hnbi
      have hsome : g.boards[i]? = some (g.boards.getD i emptyBoard) := by
        have : i < g.boards.length := h9 ▸ hi9
        simp [List.getD_eq_getElem?_getD, List.getElem?_eq_getElem this]
      subst hi hj'
      exact key _ hi9 hsome hl hj
    · rw [if_neg hl] at h
      obtain ⟨d, b, hdl, hd, hlive, h1, h2⟩ := of_mem_movesFrom h
      simp only at h1 h2
      have hd9 : d < 9 := h9 ▸ hdl
      exact key b (by omega) (by simpa [h1] using hd) hlive (by simpa [h1] using h2)

theorem of_mem_available_int {g : Game} {big cell : Int}
    (h : (big, cell) ∈ g.available_moves.map (fun m => ((m.1 : Int), (m.2 : Int)))) :
    ∃ bi ci : Nat, big = (bi : Int) ∧ cell = (ci : Int) ∧ (bi, ci) ∈ g.available_moves := by
  simp only [List.mem_map] at h
  obtain ⟨⟨bi, ci⟩, hm, he⟩ := h
  exact ⟨bi, ci, by simpa using congrArg Prod.fst he.symm,
    by simpa using congrArg Prod.snd he.symm, hm⟩

/-! ## Characterising a successful `play_move` -/

theorem pyIndex_natCast {n i : Nat} (h : i < n) : pyIndex n (i : Int) = some i := by
  unfold pyIndex
  rw [if_pos ⟨Int.natCast_nonneg i, by exact_mod_cast h⟩]
  simp

/-- The small board after placing the current player's mark. -/
def stepBoard (g : Game) (bi ci : Nat) : SmallBoard :=
  SmallBoard.update_state
    { g.boards.getD bi emptyBoard with
      cells := (g.boards.getD bi emptyBoard).cells.set ci (some g.current_player) }

/-- The game after placing the mark and hashing it in, before the macro
recompute (the state on which `_update_global_state` runs). -/
def stepMid (z : Zobrist) (g : Game) (bi ci : Nat) : Game :=
  { g with
    boards := g.boards.set bi (stepBoard g bi ci)
    zkey := g.zkey ^^^ z.nbi_key g.next_board_index ^^^ z.piece_key bi ci g.current_player }

/-- The forced board after a move landing on cell `ci`. -/
def stepNbi (z : Zobrist) (g : Game) (bi ci : Nat) : Option Nat :=
  if (((stepMid z g bi ci).update_global_state).boards.getD ci emptyBoard).liveB then some ci
  else none

/-- The explicit successor state of a legal move: exactly the mutation
sequence of `play_move` on its success path. -/
def stepGame (z : Zobrist) (g : Game) (bi ci : Nat) : Game :=
  let g3 := (stepMid z g bi ci).update_global_state
  let nbi := stepNbi z g bi ci
  { g3 with
    next_board_index := nbi
    current_player := g3.current_player.other
    zkey := g3.zkey ^^^ z.nbi_key nbi ^^^ z.stm_key }

theorem update_global_state_fields (g : Game) :
    (g.update_global_state).boards = g.boards ∧
    (g.update_global_state).current_player = g.current_player ∧
    (g.update_global_state).next_board_index = g.next_board_index ∧
    (g.update_global_state).zkey = g.zkey := by
  unfold Game.update_global_state
  cases bigWinner g.big_board_state <;> simp <;> split <;> simp

theorem place_of_legal {b : SmallBoard} {p : Player} {ci : Nat}
    (hlen : b.cells.length = 9) (hlive : b.liveB = true) (hcell : b.cells[ci]? = some none) :
    b.place p (ci : Int) =
      .ok (SmallBoard.update_state { b with cells := b.cells.set ci (some p) }) := by
  obtain ⟨hw, hd, _⟩ := liveB_spec hlive
  obtain ⟨hlt, -⟩ := List.getElem?_eq_some_iff.mp hcell
  have hci : ci < 9 := by omega
  unfold SmallBoard.place
  rw [if_neg (by simp [hw, hd]), hlen, pyIndex_natCast hci]
  simp [List.getD_eq_getElem?_getD, hcell]

theorem play_move_eq_step (z : Zobrist) {g : Game} {bi ci : Nat} (hwf : g.WF)
    (hres : ¬(g.winner.isSome = true ∨ g.drawn = true))
    (hmem : (bi, ci) ∈ g.available_moves) :
    g.play_move z (bi : Int) (ci : Int) = (none, stepGame z g bi ci) := by
  obtain ⟨hbi, hci, hlive, hcell⟩ := of_mem_available_moves hwf hmem
  obtain ⟨h9, hcl, hnbi⟩ := hwf
  have hmemb : g.boards.getD bi emptyBoard ∈ g.boards := by
    have hlt : bi < g.boards.length := by omega
    simp only [List.getD_eq_getElem?_getD, List.getElem?_eq_getElem hlt, Option.getD_some]
    exact List.getElem_mem hlt
  have hcells9 : (g.boards.getD bi emptyBoard).cells.length = 9 := hcl _ hmemb
  unfold Game.play_move
  rw [if_neg hres,
    if_pos (List.mem_map_of_mem (fun m => ((m.1 : Int), (m.2 : Int))) hmem)]
  simp only [h9, pyIndex_natCast hbi, pyIndex_natCast hci,
    place_of_legal hcells9 hlive hcell]
  rfl

theorem play_move_ok_inv {z : Zobrist} {g g' : Game} {big cell : Int}
    (h : g.play_move z big cell = (none, g')) :
    ¬(g.winner.isSome = true ∨ g.drawn = true) ∧
      ∃ bi ci : Nat, big = (bi : Int) ∧ cell = (ci : Int) ∧ (bi, ci) ∈ g.available_moves := by
  by_cases hres : g.winner.isSome = true ∨ g.drawn = true
  · rw [Game.play_move, if_pos hres] at h
    simp at h
  by_cases hmem : (big, cell) ∈ g.available_moves.map (fun m => ((m.1 : Int), (m.2 : Int)))
  · obtain ⟨bi, ci, h1, h2, h3⟩ := of_mem_available_int hmem
    exact ⟨hres, bi, ci, h1, h2, h3⟩
  · rw [Game.play_move, if_neg hres, if_neg hmem] at h
    simp at h

/-- Combined: a successful `play_move` is exactly `stepGame` at in-range
indices on a legal move of an unresolved, well-formed state. -/
theorem play_move_ok_char {z : Zobrist} {g g' : Game} {big cell : Int} (hwf : g.WF)
    (h : g.play_move z big cell = (none, g')) :
    ¬(g.winner.isSome = true ∨ g.drawn = true) ∧
      ∃ bi ci : Nat, big = (bi : Int) ∧ cell = (ci : Int) ∧ (bi, ci) ∈ g.available_moves ∧
        g' = stepGame z g bi ci := by
  obtain ⟨hres, bi, ci, h1, h2, h3⟩ := play_move_ok_inv h
  refine ⟨hres, bi, ci, h1, h2, h3, ?_⟩
  rw [h1, h2, play_move_eq_step z hwf hres h3] at h
  exact (Prod.mk.injEq _ _ _ _ ▸ h).2.symm

theorem update_state_cells (b : SmallBoard) : (SmallBoard.update_state b).cells = b.cells := by
  unfold SmallBoard.update_state
  split
  · rfl
  · split <;> rfl

theorem getD_mem_of_lt {l : List SmallBoard} {i : Nat} (h : i < l.length) :
    l.getD i emptyBoard ∈ l := by
  simp only [List.getD_eq_getElem?_getD, List.getElem?_eq_getElem h, Option.getD_some]
  exact List.getElem_mem h

theorem stepGame_boards (z : Zobrist) (g : Game) (bi ci : Nat) :
    (stepGame z g bi ci).boards = g.boards.set bi (stepBoard g bi ci) := by
  unfold stepGame
  exact (update_global_state_fields (stepMid z g bi ci)).1

theorem stepGame_nbi (z : Zobrist) (g : Game) (bi ci : Nat) :
    (stepGame z g bi ci).next_board_index = stepNbi z g bi ci := rfl

theorem stepGame_winner (z : Zobrist) (g : Game) (bi ci : Nat) :
    (stepGame z g bi ci).winner = ((stepMid z g bi ci).update_global_state).winner := rfl

theorem stepGame_drawn (z : Zobrist) (g : Game) (bi ci : Nat) :
    (stepGame z g bi ci).drawn = ((stepMid z g bi ci).update_global_state).drawn := rfl

theorem stepMid_WF {z : Zobrist} {g : Game} {bi ci : Nat} (hwf : g.WF)
    (hmem : (bi, ci) ∈ g.available_moves) : (stepMid z g bi ci).WF := by
  obtain ⟨hbi, hci, hlive, hcell⟩ := of_mem_available_moves hwf hmem
  obtain ⟨h9, hcl, hnbi⟩ := hwf
  refine ⟨by simpa [stepMid] using h9, ?_, by simpa [stepMid] using hnbi⟩
  intro b hb
  rcases List.mem_or_eq_of_mem_set hb with hb | rfl
  · exact hcl b hb
  · rw [stepBoard, update_state_cells]
    simpa using hcl _ (getD_mem_of_lt (by omega))

theorem stepGame_WF {z : Zobrist} {g : Game} {bi ci : Nat} (hwf : g.WF)
    (hmem : (bi, ci) ∈ g.available_moves) : (stepGame z g bi ci).WF := by
  obtain ⟨hbi, hci, hlive, hcell⟩ := of_mem_available_moves hwf hmem
  obtain ⟨h9m, hclm, -⟩ := stepMid_WF (z := z) hwf hmem
  obtain ⟨hub, -, -, -⟩ := update_global_state_fields (stepMid z g bi ci)
  refine ⟨?_, ?_, ?_⟩
  · rw [stepGame_boards]; simpa [stepMid] using h9m
  · intro b hb
    rw [stepGame_boards] at hb
    exact hclm b (by simpa [stepMid] using hb)
  · rw [stepGame_nbi, stepNbi]
    split
    · exact hci
    · trivial

theorem available_moves_eq_nil_iff {g : Game} (hwf : g.WF) :
    g.available_moves = [] ↔ ∀ b ∈ g.boards, b.liveB = false := by
  obtain ⟨h9, hcl, hnbi⟩ := hwf
  unfold Game.available_moves
  cases hn : g.next_board_index with
  | none => simpa using movesFrom_eq_nil_iff
  | some i =>
    simp only
    by_cases hl : g.liveIdx i = true
    · rw [if_pos hl]
      constructor
      · intro h
        exact absurd (List.map_eq_nil_iff.mp h) (openCells_ne_nil hl)
      · intro h
        exfalso
        have hi : i < 9 := by rw [hn] at hnbi; exact hnbi
        have hmem : g.boards.getD i emptyBoard ∈ g.boards := getD_mem_of_lt (by omega)
        rw [Game.liveIdx, h _ hmem] at hl
        exact Bool.false_ne_true hl
    · rw [if_neg hl]
      exact movesFrom_eq_nil_iff

theorem update_gs_of_winner {g : Game} {v : Player}
    (h : bigWinner g.big_board_state = some v) :
    g.update_global_state = { g with winner := some v, drawn := false } := by
  unfold Game.update_global_state
  rw [h]

theorem update_gs_of_none_empty {g : Game} (h : bigWinner g.big_board_state = none)
    (he : g.available_moves.isEmpty = true) :
    g.update_global_state = { g with winner := none, drawn := true } := by
  unfold Game.update_global_state
  rw [h]
  simp only
  rw [if_pos he]

theorem update_gs_of_none_nonempty {g : Game} (h : bigWinner g.big_board_state = none)
    (he : ¬ g.available_moves.isEmpty = true) :
    g.update_global_state = g := by
  unfold Game.update_global_state
  rw [h]
  simp only
  rw [if_neg he]

/-- The macro-state invariant restored by one legal move: empty move list
implies resolution, and a drawn game has no moves. -/
theorem stepGame_resolution {z : Zobrist} {g : Game} {bi ci : Nat} (hwf : g.WF)
    (hres : ¬(g.winner.isSome = true ∨ g.drawn = true))
    (hmem : (bi, ci) ∈ g.available_moves) :
    ((stepGame z g bi ci).available_moves = [] →
      ((stepGame z g bi ci).winner.isSome = true ∨ (stepGame z g bi ci).drawn = true)) ∧
    ((stepGame z g bi ci).drawn = true → (stepGame z g bi ci).available_moves = []) := by
  obtain ⟨hbi, hci, hlive, hcell⟩ := of_mem_available_moves hwf hmem
  have hwfm : (stepMid z g bi ci).WF := stepMid_WF hwf hmem
  set gm := stepMid z g bi ci with hgm
  set gs := stepGame z g bi ci with hgs
  have hsb : gs.boards = gm.boards := by
    rw [hgs, stepGame_boards, hgm]; rfl
  have hnbi_eq : gs.next_board_index = stepNbi z g bi ci := stepGame_nbi z g bi ci
  have hnbi_def : stepNbi z g bi ci =
      if (gm.boards.getD ci emptyBoard).liveB then some ci else none := by
    rw [stepNbi, (update_global_state_fields gm).1, hgm]
  have hwg : gs.winner = (gm.update_global_state).winner := by rw [hgs]; rfl
  have hdg : gs.drawn = (gm.update_global_state).drawn := by rw [hgs]; rfl
  have hdm : gm.drawn = g.drawn := by rw [hgm]; rfl
  rcases not_or.mp hres with ⟨-, hnd⟩
  by_cases hl : (gm.boards.getD ci emptyBoard).liveB = true
  · -- forced board live: the successor always has moves
    have hne : gs.available_moves ≠ [] := by
      have hsome : gs.next_board_index = some ci := by
        rw [hnbi_eq, hnbi_def, if_pos hl]
      have hlix : gs.liveIdx ci = true := by rw [Game.liveIdx, hsb]; exact hl
      unfold Game.available_moves
      rw [hsome]
      simp only
      rw [if_pos hlix]
      intro hmapnil
      exact absurd (List.map_eq_nil_iff.mp hmapnil)
        (openCells_ne_nil (by rw [Game.liveIdx] at hlix; exact hlix))
    refine ⟨fun h => absurd h hne, fun hdrawn => ?_⟩
    exfalso
    rw [hdg] at hdrawn
    rcases hbw : bigWinner gm.big_board_state with _ | v
    · by_cases hemp : gm.available_moves.isEmpty = true
      · have hnil : gm.available_moves = [] := by simpa [List.isEmpty_iff] using hemp
        have hdead := (available_moves_eq_nil_iff hwfm).mp hnil
        have hmemci : gm.boards.getD ci emptyBoard ∈ gm.boards :=
          getD_mem_of_lt (by rw [hwfm.1]; omega)
        rw [hdead _ hmemci] at hl
        exact Bool.false_ne_true hl
      · rw [update_gs_of_none_nonempty hbw hemp, hdm] at hdrawn
        exact hnd hdrawn
    · rw [update_gs_of_winner hbw] at hdrawn
      simp at hdrawn
  · -- forced board dead: free choice next
    have hnone : gs.next_board_index = none := by
      rw [hnbi_eq, hnbi_def, if_neg hl]
    have hmoves : gs.available_moves = movesFrom 0 gs.boards := by
      unfold Game.available_moves
      rw [hnone]
      rfl
    constructor
    · intro hnil
      rw [hmoves] at hnil
      have hdeadm : ∀ b ∈ gm.boards, b.liveB = false := by
        rw [← hsb]; exact movesFrom_eq_nil_iff.mp hnil
      have hnilm : gm.available_moves = [] := (available_moves_eq_nil_iff hwfm).mpr hdeadm
      rw [hwg, hdg]
      rcases hbw : bigWinner gm.big_board_state with _ | v
      · right
        rw [update_gs_of_none_empty hbw (by simp [hnilm])]
      · left
        rw [update_gs_of_winner hbw]
        rfl
    · intro hdrawn
      rw [hdg] at hdrawn
      rcases hbw : bigWinner gm.big_board_state with _ | v
      · by_cases hemp : gm.available_moves.isEmpty = true
        · have hnilm : gm.available_moves = [] := by simpa [List.isEmpty_iff] using hemp
          have hdeadm := (available_moves_eq_nil_iff hwfm).mp hnilm
          rw [hmoves]
          exact movesFrom_eq_nil_iff.mpr (by rw [hsb]; exact hdeadm)
        · rw [update_gs_of_none_nonempty hbw hemp, hdm] at hdrawn
          exact absurd hdrawn hnd
      · rw [update_gs_of_winner hbw] at hdrawn
        simp at hdrawn

/-! ## The from-scratch position hash (spec §4.3) and its preservation -/

/-- XOR of the piece keys of the occupied cells of one board, cell index
starting at `j` (the from-scratch accumulation of spec §4.3). -/
def cellsHash (z : Zobrist) (bi : Nat) : Nat → List Cell → Nat
  | _, [] => 0
  | j, c :: cs =>
    (match c with
     | some p => z.piece_key bi j p
     | none => 0) ^^^ cellsHash z bi (j + 1) cs

/-- XOR of the piece keys of all occupied cells of all boards, board index
starting at `i`. -/
def boardsHash (z : Zobrist) : Nat → List SmallBoard → Nat
  | _, [] => 0
  | i, b :: bs => cellsHash z i 0 b.cells ^^^ boardsHash z (i + 1) bs

/-- The side-to-move component: the key exactly when `O` is to move. -/
def stmPart (z : Zobrist) (p : Player) : Nat :=
  if p = Player.O then z.stm_key else 0

/-- The hash `PositionHasher` computes from scratch for a
`(boards, currentPlayer, forcedBoard)` triple (spec §4.3). -/
def scratchHash (z : Zobrist) (g : Game) : Nat :=
  boardsHash z 0 g.boards ^^^ stmPart z g.current_player ^^^ z.nbi_key g.next_board_index

theorem nat_xor_left_comm (a b c : Nat) : a ^^^ (b ^^^ c) = b ^^^ (a ^^^ c) := by
  rw [← Nat.xor_assoc, Nat.xor_comm a b, Nat.xor_assoc]

theorem stmPart_other (z : Zobrist) (p : Player) :
    stmPart z p.other = stmPart z p ^^^ z.stm_key := by
  cases p <;> simp [stmPart, Player.other]

theorem cellsHash_set {z : Zobrist} {bi : Nat} {p : Player} :
    ∀ {cs : List Cell} {j : Nat} (k : Nat), cs[j]? = some none →
      cellsHash z bi k (cs.set j (some p)) = cellsHash z bi k cs ^^^ z.piece_key bi (k + j) p := by
  intro cs
  induction cs with
  | nil => intro j k h; simp at h
  | cons c cs ih =>
    intro j k h
    cases j with
    | zero =>
      have hc : c = none := by simpa using h
      subst hc
      simp only [List.set_cons_zero, cellsHash, Nat.add_zero, Nat.zero_xor]
      rw [Nat.xor_comm]
    | succ j =>
      have h' : cs[j]? = some none := by simpa using h
      simp only [List.set_cons_succ, cellsHash]
      rw [ih _ h', ← Nat.xor_assoc]
      have : k + 1 + j = k + (j + 1) := by omega
      rw [this]

theorem boardsHash_set {z : Zobrist} {b' : SmallBoard} :
    ∀ {bs : List SmallBoard} {k : Nat} (n : Nat), k < bs.length →
      boardsHash z n (bs.set k b') =
        boardsHash z n bs ^^^ cellsHash z (n + k) 0 (bs.getD k emptyBoard).cells ^^^
          cellsHash z (n + k) 0 b'.cells := by
  intro bs
  induction bs with
  | nil => intro k n h; simp at h
  | cons b bs ih =>
    intro k n h
    cases k with
    | zero =>
      simp only [List.set_cons_zero, boardsHash, Nat.add_zero, List.getD_cons_zero]
      rw [Nat.xor_assoc (cellsHash z n 0 b.cells) (boardsHash z (n + 1) bs)
          (cellsHash z n 0 b.cells)]
      rw [Nat.xor_comm (boardsHash z (n + 1) bs) (cellsHash z n 0 b.cells)]
      rw [← Nat.xor_assoc (cellsHash z n 0 b.cells) (cellsHash z n 0 b.cells)
          (boardsHash z (n + 1) bs)]
      rw [Nat.xor_self, Nat.zero_xor]
      exact Nat.xor_comm _ _
    | succ k =>
      have hk : k < bs.length := by simpa using h
      simp only [List.set_cons_succ, boardsHash, List.getD_cons_succ]
      rw [ih _ hk]
      have : n + 1 + k = n + (k + 1) := by omega
      rw [this, ← Nat.xor_assoc, ← Nat.xor_assoc]

theorem stepGame_zkey (z : Zobrist) (g : Game) (bi ci : Nat) :
    (stepGame z g bi ci).zkey =
      g.zkey ^^^ z.nbi_key g.next_board_index ^^^ z.piece_key bi ci g.current_player ^^^
        z.nbi_key (stepNbi z g bi ci) ^^^ z.stm_key := by
  unfold stepGame
  simp only
  rw [(update_global_state_fields (stepMid z g bi ci)).2.2.2]
  rfl

theorem stepGame_current (z : Zobrist) (g : Game) (bi ci : Nat) :
    (stepGame z g bi ci).current_player = g.current_player.other := by
  unfold stepGame
  simp only
  rw [(update_global_state_fields (stepMid z g bi ci)).2.1]
  rfl

theorem scratchHash_step {z : Zobrist} {g : Game} {bi ci : Nat} (hwf : g.WF)
    (hmem : (bi, ci) ∈ g.available_moves) :
    scratchHash z (stepGame z g bi ci) =
      scratchHash z g ^^^ z.piece_key bi ci g.current_player ^^^
        z.nbi_key (stepNbi z g bi ci) ^^^ z.stm_key ^^^ z.nbi_key g.next_board_index := by
  obtain ⟨hbi, hci, hlive, hcell⟩ := of_mem_available_moves hwf hmem
  obtain ⟨h9, hcl, hnbi⟩ := hwf
  have hbds : (stepGame z g bi ci).boards = g.boards.set bi (stepBoard g bi ci) :=
    stepGame_boards z g bi ci
  have hcur := stepGame_current z g bi ci
  have hnx : (stepGame z g bi ci).next_board_index = stepNbi z g bi ci := rfl
  unfold scratchHash
  rw [hbds, hcur, hnx, stmPart_other]
  rw [boardsHash_set 0 (by omega)]
  have hcellsB : (stepBoard g bi ci).cells =
      (g.boards.getD bi emptyBoard).cells.set ci (some g.current_player) := by
    rw [stepBoard, update_state_cells]
  rw [hcellsB, cellsHash_set 0 hcell]
  simp only [Nat.zero_add]
  -- pure XOR algebra from here
  generalize boardsHash z 0 g.boards = A
  generalize cellsHash z bi 0 (g.boards.getD bi emptyBoard).cells = B
  generalize z.piece_key bi ci g.current_player = P
  generalize stmPart z g.current_player = S
  generalize z.stm_key = K
  generalize z.nbi_key (stepNbi z g bi ci) = N
  generalize z.nbi_key g.next_board_index = M
  simp only [Nat.xor_assoc]
  rw [nat_xor_left_comm B B]
  rw [← Nat.xor_assoc B B, Nat.xor_self, Nat.zero_xor]
  -- A ^^^ (P ^^^ (S ^^^ (K ^^^ N))) = A ^^^ (S ^^^ (M ^^^ (P ^^^ (N ^^^ (K ^^^ M)))))
  congr 1
  rw [nat_xor_left_comm P S]
  congr 1
  rw [nat_xor_left_comm M P]
  congr 1
  rw [nat_xor_left_comm M N, nat_xor_left_comm M K, Nat.xor_self, Nat.xor_zero]
  exact Nat.xor_comm K N

/-! ## The reachability invariant -/

theorem clone_eq (g : Game) : g.clone = g := rfl

/-- Everything `play_move` preserves from the fresh game onwards: shape
well-formedness, the resolution/moves relationship, and hash consistency. -/
def Inv (z : Zobrist) (g : Game) : Prop :=
  g.WF ∧ (g.available_moves = [] → g.winner.isSome = true ∨ g.drawn = true) ∧
    (g.drawn = true → g.available_moves = []) ∧ g.zkey = scratchHash z g

theorem inv_init (z : Zobrist) : Inv z (initGame z) := by
  refine ⟨⟨rfl, ?_, trivial⟩, ?_, ?_, ?_⟩
  · intro b hb
    have : b = emptyBoard := List.eq_of_mem_replicate hb
    rw [this]
    rfl
  · intro h
    have hform : (initGame z).available_moves = movesFrom 0 (List.replicate 9 emptyBoard) := rfl
    rw [hform] at h
    exact absurd h (by decide)
  · intro h
    rw [show (initGame z).drawn = false from rfl] at h
    exact absurd h (by decide)
  · show 0 ^^^ z.nbi_key none = scratchHash z (initGame z)
    unfold scratchHash
    have h1 : boardsHash z 0 (initGame z).boards = 0 := by
      show boardsHash z 0 (List.replicate 9 emptyBoard) = 0
      simp [List.replicate_succ, boardsHash, cellsHash, emptyBoard]
    have h2 : stmPart z (initGame z).current_player = 0 := rfl
    rw [h1, h2]
    simp only [Nat.zero_xor]
    rfl

theorem inv_step {z : Zobrist} {g g' : Game} {big cell : Int} (hI : Inv z g)
    (h : g.play_move z big cell = (none, g')) : Inv z g' := by
  obtain ⟨hwf, -, -, hz⟩ := hI
  obtain ⟨hres, bi, ci, -, -, hmem, rfl⟩ := play_move_ok_char hwf h
  refine ⟨stepGame_WF hwf hmem, (stepGame_resolution hwf hres hmem).1,
    (stepGame_resolution hwf hres hmem).2, ?_⟩
  rw [stepGame_zkey, scratchHash_step hwf hmem, hz]
  generalize scratchHash z g = A
  generalize z.piece_key bi ci g.current_player = P
  generalize z.stm_key = K
  generalize z.nbi_key (stepNbi z g bi ci) = N
  generalize z.nbi_key g.next_board_index = M
  simp only [Nat.xor_assoc]
  congr 1
  rw [nat_xor_left_comm M P]
  congr 1
  rw [nat_xor_left_comm M N]
  congr 1
  rw [Nat.xor_comm M K]

theorem runOps_inv {z : Zobrist} : ∀ (ops : List GameOp) {g g' : Game}, Inv z g →
    runOps z g ops = some g' → Inv z g' := by
  intro ops
  induction ops with
  | nil =>
    intro g g' hI h
    cases h
    exact hI
  | cons op ops ih =>
    intro g g' hI h
    cases op with
    | play b c =>
      rw [runOps] at h
      rcases hp : g.play_move z b c with ⟨e, g1⟩
      rw [hp] at h
      cases e with
      | none => exact ih (inv_step hI hp) h
      | some e => simp at h
    | copy =>
      rw [runOps, clone_eq] at h
      exact ih hI h

theorem reachable_inv {z : Zobrist} {g : Game} (h : Reachable z g) : Inv z g := by
  obtain ⟨ops, hops⟩ := h
  exact runOps_inv ops (inv_init z) hops

/-! ## Concrete states used in counterexamples and witnesses -/

/-- A 17-move game in which `X` captures boards 0, 1 and 2 (macro top row)
while boards 5..8 still have open cells. -/
def seqC1 : List (Int × Int) :=
  [(0, 3), (3, 0), (0, 4), (4, 0), (0, 5), (5, 0),
   (1, 3), (3, 1), (1, 4), (4, 1), (1, 5), (5, 1),
   (2, 3), (3, 2), (2, 4), (4, 2), (2, 5)]

/-- Explicit cell abbreviations for the literal states below. -/
def cE : Cell := none

def cX : Cell := some Player.X

def cO : Cell := some Player.O

/-! The seventeen successive states of `seqC1`, spelled out so that each
`play_move` step is a bounded, single-step evaluation. -/

def gS1 : Game :=
  { boards :=
      [⟨[cE, cE, cE, cX, cE, cE, cE, cE, cE], none, false⟩,
       ⟨[cE, cE, cE, cE, cE, cE, cE, cE, cE], none, false⟩,
       ⟨[cE, cE, cE, cE, cE, cE, cE, cE, cE], none, false⟩,
       ⟨[cE, cE, cE, cE, cE, cE, cE, cE, cE], none, false⟩,
       ⟨[cE, cE, cE, cE, cE, cE, cE, cE, cE], none, false⟩,
       ⟨[cE, cE, cE, cE, cE, cE, cE, cE, cE], none, false⟩,
       ⟨[cE, cE, cE, cE, cE, cE, cE, cE, cE], none, false⟩,
       ⟨[cE, cE, cE, cE, cE, cE, cE, cE, cE], none, false⟩,
       ⟨[cE, cE, cE, cE, cE, cE, cE, cE, cE], none, false⟩]
    current_player := Player.O
    next_board_index := some 3
    winner := none
    drawn := false
    zkey := 0 }

def gS2 : Game :=
  { boards :=
      [⟨[cE, cE, cE, cX, cE, cE, cE, cE, cE], none, false⟩,
       ⟨[cE, cE, cE, cE, cE, cE, cE, cE, cE], none, false⟩,
       ⟨[cE, cE, cE, cE, cE, cE, cE, cE, cE], none, false⟩,
       ⟨[cO, cE, cE, cE, cE, cE, cE, cE, cE], none, false⟩,
       ⟨[cE, cE, cE, cE, cE, cE, cE, cE, cE], none, false⟩,
       ⟨[cE, cE, cE, cE, cE, cE, cE, cE, cE], none, false⟩,
       ⟨[cE, cE, cE, cE, cE, cE, cE, cE, cE], none, false⟩,
       ⟨[cE, cE, cE, cE, cE, cE, cE, cE, cE], none, false⟩,
       ⟨[cE, cE, cE, cE, cE, cE, cE, cE, cE], none, false⟩]
    current_player := Player.X
    next_board_index := some 0
    winner := none
    drawn := false
    zkey := 0 }

def gS3 : Game :=
  { boards :=
      [⟨[cE, cE, cE, cX, cX, cE, cE, cE, cE], none, false⟩,
       ⟨[cE, cE, cE, cE, cE, cE, cE, cE, cE], none, false⟩,
       ⟨[cE, cE, cE, cE, cE, cE, cE, cE, cE], none, false⟩,
       ⟨[cO, cE, cE, cE, cE, cE, cE, cE, cE], none, false⟩,
       ⟨[cE, cE, cE, cE, cE, cE, cE, cE, cE], none, false⟩,
       ⟨[cE, cE, cE, cE, cE, cE, cE, cE, cE], none, false⟩,
       ⟨[cE, cE, cE, cE, cE, cE, cE, cE, cE], none, false⟩,
       ⟨[cE, cE, cE, cE, cE, cE, cE, cE, cE], none, false⟩,
       ⟨[cE, cE, cE, cE, cE, cE, cE, cE, cE], none, false⟩]
    current_player := Player.O
    next_board_index := some 4
    winner := none
    drawn := false
    zkey := 0 }

def gS4 : Game :=
  { boards :=
      [⟨[cE, cE, cE, cX, cX, cE, cE, cE, cE], none, false⟩,
       ⟨[cE, cE, cE, cE, cE, cE, cE, cE, cE], none, false⟩,
       ⟨[cE, cE, cE, cE, cE, cE, cE, cE, cE], none, false⟩,
       ⟨[cO, cE, cE, cE, cE, cE, cE, cE, cE], none, false⟩,
       ⟨[cO, cE, cE, cE, cE, cE, cE, cE, cE], none, false⟩,
       ⟨[cE, cE, cE, cE, cE, cE, cE, cE, cE], none, false⟩,
       ⟨[cE, cE, cE, cE, cE, cE, cE, cE, cE], none, false⟩,
       ⟨[cE, cE, cE, cE, cE, cE, cE, cE, cE], none, false⟩,
       ⟨[cE, cE, cE, cE, cE, cE, cE, cE, cE], none, false⟩]
    current_player := Player.X
    next_board_index := some 0
    winner := none
    drawn := false
    zkey := 0 }

def gS5 : Game :=
  { boards :=
      [⟨[cE, cE, cE, cX, cX, cX, cE, cE, cE], some Player.X, false⟩,
       ⟨[cE, cE, cE, cE, cE, cE, cE, cE, cE], none, false⟩,
       ⟨[cE, cE, cE, cE, cE, cE, cE, cE, cE], none, false⟩,
       ⟨[cO, cE, cE, cE, cE, cE, cE, cE, cE], none, false⟩,
       ⟨[cO, cE, cE, cE, cE, cE, cE, cE, cE], none, false⟩,
       ⟨[cE, cE, cE, cE, cE, cE, cE, cE, cE], none, false⟩,
       ⟨[cE, cE, cE, cE, cE, cE, cE, cE, cE], none, false⟩,
       ⟨[cE, cE, cE, cE, cE, cE, cE, cE, cE], none, false⟩,
       ⟨[cE, cE, cE, cE, cE, cE, cE, cE, cE], none, false⟩]
    current_player := Player.O
    next_board_index := some 5
    winner := none
    drawn := false
    zkey := 0 }

def gS6 : Game :=
  { boards :=
      [⟨[cE, cE, cE, cX, cX, cX, cE, cE, cE], some Player.X, false⟩,
       ⟨[cE, cE, cE, cE, cE, cE, cE, cE, cE], none, false⟩,
       ⟨[cE, cE, cE, cE, cE, cE, cE, cE, cE], none, false⟩,
       ⟨[cO, cE, cE, cE, cE, cE, cE, cE, cE], none, false⟩,
       ⟨[cO, cE, cE, cE, cE, cE, cE, cE, cE], none, false⟩,
       ⟨[cO, cE, cE, cE, cE, cE, cE, cE, cE], none, false⟩,
       ⟨[cE, cE, cE, cE, cE, cE, cE, cE, cE], none, false⟩,
       ⟨[cE, cE, cE, cE, cE, cE, cE, cE, cE], none, false⟩,
       ⟨[cE, cE, cE, cE, cE, cE, cE, cE, cE], none, false⟩]
    current_player := Player.X
    next_board_index := none
    winner := none
    drawn := false
    zkey := 0 }

def gS7 : Game :=
  { boards :=
      [⟨[cE, cE, cE, cX, cX, cX, cE, cE, cE], some Player.X, false⟩,
       ⟨[cE, cE, cE, cX, cE, cE, cE, cE, cE], none, false⟩,
       ⟨[cE, cE, cE, cE, cE, cE, cE, cE, cE], none, false⟩,
       ⟨[cO, cE, cE, cE, cE, cE, cE, cE, cE], none, false⟩,
       ⟨[cO, cE, cE, cE, cE, cE, cE, cE, cE], none, false⟩,
       ⟨[cO, cE, cE, cE, cE, cE, cE, cE, cE], none, false⟩,
       ⟨[cE, cE, cE, cE, cE, cE, cE, cE, cE], none, false⟩,
       ⟨[cE, cE, cE, cE, cE, cE, cE, cE, cE], none, false⟩,
       ⟨[cE, cE, cE, cE, cE, cE, cE, cE, cE], none, false⟩]
    current_player := Player.O
    next_board_index := some 3
    winner := none
    drawn := false
    zkey := 0 }

def gS8 : Game :=
  { boards :=
      [⟨[cE, cE, cE, cX, cX, cX, cE, cE, cE], some Player.X, false⟩,
       ⟨[cE, cE, cE, cX, cE, cE, cE, cE, cE], none, false⟩,
       ⟨[cE, cE, cE, cE, cE, cE, cE, cE, cE], none, false⟩,
       ⟨[cO, cO, cE, cE, cE, cE, cE, cE, cE], none, false⟩,
       ⟨[cO, cE, cE, cE, cE, cE, cE, cE, cE], none, false⟩,
       ⟨[cO, cE, cE, cE, cE, cE, cE, cE, cE], none, false⟩,
       ⟨[cE, cE, cE, cE, cE, cE, cE, cE, cE], none, false⟩,
       ⟨[cE, cE, cE, cE, cE, cE, cE, cE, cE], none, false⟩,
       ⟨[cE, cE, cE, cE, cE, cE, cE, cE, cE], none, false⟩]
    current_player := Player.X
    next_board_index := some 1
    winner := none
    drawn := false
    zkey := 0 }

def gS9 : Game :=
  { boards :=
      [⟨[cE, cE, cE, cX, cX, cX, cE, cE, cE], some Player.X, false⟩,
       ⟨[cE, cE, cE, cX, cX, cE, cE, cE, cE], none, false⟩,
       ⟨[cE, cE, cE, cE, cE, cE, cE, cE, cE], none, false⟩,
       ⟨[cO, cO, cE, cE, cE, cE, cE, cE, cE], none, false⟩,
       ⟨[cO, cE, cE, cE, cE, cE, cE, cE, cE], none, false⟩,
       ⟨[cO, cE, cE, cE, cE, cE, cE, cE, cE], none, false⟩,
       ⟨[cE, cE, cE, cE, cE, cE, cE, cE, cE], none, false⟩,
       ⟨[cE, cE, cE, cE, cE, cE, cE, cE, cE], none, false⟩,
       ⟨[cE, cE, cE, cE, cE, cE, cE, cE, cE], none, false⟩]
    current_player := Player.O
    next_board_index := some 4
    winner := none
    drawn := false
    zkey := 0 }

def gS10 : Game :=
  { boards :=
      [⟨[cE, cE, cE, cX, cX, cX, cE, cE, cE], some Player.X, false⟩,
       ⟨[cE, cE, cE, cX, cX, cE, cE, cE, cE], none, false⟩,
       ⟨[cE, cE, cE, cE, cE, cE, cE, cE, cE], none, false⟩,
       ⟨[cO, cO, cE, cE, cE, cE, cE, cE, cE], none, false⟩,
       ⟨[cO, cO, cE, cE, cE, cE, cE, cE, cE], none, false⟩,
       ⟨[cO, cE, cE, cE, cE, cE, cE, cE, cE], none, false⟩,
       ⟨[cE, cE, cE, cE, cE, cE, cE, cE, cE], none, false⟩,
       ⟨[cE, cE, cE, cE, cE, cE, cE, cE, cE], none, false⟩,
       ⟨[cE, cE, cE, cE, cE, cE, cE, cE, cE], none, false⟩]
    current_player := Player.X
    next_board_index := some 1
    winner := none
    drawn := false
    zkey := 0 }

def gS11 : Game :=
  { boards :=
      [⟨[cE, cE, cE, cX, cX, cX, cE, cE, cE], some Player.X, false⟩,
       ⟨[cE, cE, cE, cX, cX, cX, cE, cE, cE], some Player.X, false⟩,
       ⟨[cE, cE, cE, cE, cE, cE, cE, cE, cE], none, false⟩,
       ⟨[cO, cO, cE, cE, cE, cE, cE, cE, cE], none, false⟩,
       ⟨[cO, cO, cE, cE, cE, cE, cE, cE, cE], none, false⟩,
       ⟨[cO, cE, cE, cE, cE, cE, cE, cE, cE], none, false⟩,
       ⟨[cE, cE, cE, cE, cE, cE, cE, cE, cE], none, false⟩,
       ⟨[cE, cE, cE, cE, cE, cE, cE, cE, cE], none, false⟩,
       ⟨[cE, cE, cE, cE, cE, cE, cE, cE, cE], none, false⟩]
    current_player := Player.O
    next_board_index := some 5
    winner := none
    drawn := false
    zkey := 0 }

def gS12 : Game :=
  { boards :=
      [⟨[cE, cE, cE, cX, cX, cX, cE, cE, cE], some Player.X, false⟩,
       ⟨[cE, cE, cE, cX, cX, cX, cE, cE, cE], some Player.X, false⟩,
       ⟨[cE, cE, cE, cE, cE, cE, cE, cE, cE], none, false⟩,
       ⟨[cO, cO, cE, cE, cE, cE, cE, cE, cE], none, false⟩,
       ⟨[cO, cO, cE, cE, cE, cE, cE, cE, cE], none, false⟩,
       ⟨[cO, cO, cE, cE, cE, cE, cE, cE, cE], none, false⟩,
       ⟨[cE, cE, cE, cE, cE, cE, cE, cE, cE], none, false⟩,
       ⟨[cE, cE, cE, cE, cE, cE, cE, cE, cE], none, false⟩,
       ⟨[cE, cE, cE, cE, cE, cE, cE, cE, cE], none, false⟩]
    current_player := Player.X
    next_board_index := none
    winner := none
    drawn := false
    zkey := 0 }

def gS13 : Game :=
  { boards :=
      [⟨[cE, cE, cE, cX, cX, cX, cE, cE, cE], some Player.X, false⟩,
       ⟨[cE, cE, cE, cX, cX, cX, cE, cE, cE], some Player.X, false⟩,
       ⟨[cE, cE, cE, cX, cE, cE, cE, cE, cE], none, false⟩,
       ⟨[cO, cO, cE, cE, cE, cE, cE, cE, cE], none, false⟩,
       ⟨[cO, cO, cE, cE, cE, cE, cE, cE, cE], none, false⟩,
       ⟨[cO, cO, cE, cE, cE, cE, cE, cE, cE], none, false⟩,
       ⟨[cE, cE, cE, cE, cE, cE, cE, cE, cE], none, false⟩,
       ⟨[cE, cE, cE, cE, cE, cE, cE, cE, cE], none, false⟩,
       ⟨[cE, cE, cE, cE, cE, cE, cE, cE, cE], none, false⟩]
    current_player := Player.O
    next_board_index := some 3
    winner := none
    drawn := false
    zkey := 0 }

def gS14 : Game :=
  { boards :=
      [⟨[cE, cE, cE, cX, cX, cX, cE, cE, cE], some Player.X, false⟩,
       ⟨[cE, cE, cE, cX, cX, cX, cE, cE, cE], some Player.X, false⟩,
       ⟨[cE, cE, cE, cX, cE, cE, cE, cE, cE], none, false⟩,
       ⟨[cO, cO, cO, cE, cE, cE, cE, cE, cE], some Player.O, false⟩,
       ⟨[cO, cO, cE, cE, cE, cE, cE, cE, cE], none, false⟩,
       ⟨[cO, cO, cE, cE, cE, cE, cE, cE, cE], none, false⟩,
       ⟨[cE, cE, cE, cE, cE, cE, cE, cE, cE], none, false⟩,
       ⟨[cE, cE, cE, cE, cE, cE, cE, cE, cE], none, false⟩,
       ⟨[cE, cE, cE, cE, cE, cE, cE, cE, cE], none, false⟩]
    current_player := Player.X
    next_board_index := some 2
    winner := none
    drawn := false
    zkey := 0 }

def gS15 : Game :=
  { boards :=
      [⟨[cE, cE, cE, cX, cX, cX, cE, cE, cE], some Player.X, false⟩,
       ⟨[cE, cE, cE, cX, cX, cX, cE, cE, cE], some Player.X, false⟩,
       ⟨[cE, cE, cE, cX, cX, cE, cE, cE, cE], none, false⟩,
       ⟨[cO, cO, cO, cE, cE, cE, cE, cE, cE], some Player.O, false⟩,
       ⟨[cO, cO, cE, cE, cE, cE, cE, cE, cE], none, false⟩,
       ⟨[cO, cO, cE, cE, cE, cE, cE, cE, cE], none, false⟩,
       ⟨[cE, cE, cE, cE, cE, cE, cE, cE, cE], none, false⟩,
       ⟨[cE, cE, cE, cE, cE, cE, cE, cE, cE], none, false⟩,
       ⟨[cE, cE, cE, cE, cE, cE, cE, cE, cE], none, false⟩]
    current_player := Player.O
    next_board_index := some 4
    winner := none
    drawn := false
    zkey := 0 }

def gS16 : Game :=
  { boards :=
      [⟨[cE, cE, cE, cX, cX, cX, cE, cE, cE], some Player.X, false⟩,
       ⟨[cE, cE, cE, cX, cX, cX, cE, cE, cE], some Player.X, false⟩,
       ⟨[cE, cE, cE, cX, cX, cE, cE, cE, cE], none, false⟩,
       ⟨[cO, cO, cO, cE, cE, cE, cE, cE, cE], some Player.O, false⟩,
       ⟨[cO, cO, cO, cE, cE, cE, cE, cE, cE], some Player.O, false⟩,
       ⟨[cO, cO, cE, cE, cE, cE, cE, cE, cE], none, false⟩,
       ⟨[cE, cE, cE, cE, cE, cE, cE, cE, cE], none, false⟩,
       ⟨[cE, cE, cE, cE, cE, cE, cE, cE, cE], none, false⟩,
       ⟨[cE, cE, cE, cE, cE, cE, cE, cE, cE], none, false⟩]
    current_player := Player.X
    next_board_index := some 2
    winner := none
    drawn := false
    zkey := 0 }

def gS17 : Game :=
  { boards :=
      [⟨[cE, cE, cE, cX, cX, cX, cE, cE, cE], some Player.X, false⟩,
       ⟨[cE, cE, cE, cX, cX, cX, cE, cE, cE], some Player.X, false⟩,
       ⟨[cE, cE, cE, cX, cX, cX, cE, cE, cE], some Player.X, false⟩,
       ⟨[cO, cO, cO, cE, cE, cE, cE, cE, cE], some Player.O, false⟩,
       ⟨[cO, cO, cO, cE, cE, cE, cE, cE, cE], some Player.O, false⟩,
       ⟨[cO, cO, cE, cE, cE, cE, cE, cE, cE], none, false⟩,
       ⟨[cE, cE, cE, cE, cE, cE, cE, cE, cE], none, false⟩,
       ⟨[cE, cE, cE, cE, cE, cE, cE, cE, cE], none, false⟩,
       ⟨[cE, cE, cE, cE, cE, cE, cE, cE, cE], none, false⟩]
    current_player := Player.O
    next_board_index := some 5
    winner := some Player.X
    drawn := false
    zkey := 0 }

set_option maxHeartbeats 2000000 in
theorem seqC1_step1 :
    Game.play_move zeroZobrist (initGame zeroZobrist) 0 3 = (none, gS1) := by decide

set_option maxHeartbeats 2000000 in
theorem seqC1_step2 :
    Game.play_move zeroZobrist (gS1) 3 0 = (none, gS2) := by decide

set_option maxHeartbeats 2000000 in
theorem seqC1_step3 :
    Game.play_move zeroZobrist (gS2) 0 4 = (none, gS3) := by decide

set_option maxHeartbeats 2000000 in
theorem seqC1_step4 :
    Game.play_move zeroZobrist (gS3) 4 0 = (none, gS4) := by decide

set_option maxHeartbeats 2000000 in
theorem seqC1_step5 :
    Game.play_move zeroZobrist (gS4) 0 5 = (none, gS5) := by decide

set_option maxHeartbeats 2000000 in
theorem seqC1_step6 :
    Game.play_move zeroZobrist (gS5) 5 0 = (none, gS6) := by decide

set_option maxHeartbeats 2000000 in
theorem seqC1_step7 :
    Game.play_move zeroZobrist (gS6) 1 3 = (none, gS7) := by decide

set_option maxHeartbeats 2000000 in
theorem seqC1_step8 :
    Game.play_move zeroZobrist (gS7) 3 1 = (none, gS8) := by decide

set_option maxHeartbeats 2000000 in
theorem seqC1_step9 :
    Game.play_move zeroZobrist (gS8) 1 4 = (none, gS9) := by decide

set_option maxHeartbeats 2000000 in
theorem seqC1_step10 :
    Game.play_move zeroZobrist (gS9) 4 1 = (none, gS10) := by decide

set_option maxHeartbeats 2000000 in
theorem seqC1_step11 :
    Game.play_move zeroZobrist (gS10) 1 5 = (none, gS11) := by decide

set_option maxHeartbeats 2000000 in
theorem seqC1_step12 :
    Game.play_move zeroZobrist (gS11) 5 1 = (none, gS12) := by decide

set_option maxHeartbeats 2000000 in
theorem seqC1_step13 :
    Game.play_move zeroZobrist (gS12) 2 3 = (none, gS13) := by decide

set_option maxHeartbeats 2000000 in
theorem seqC1_step14 :
    Game.play_move zeroZobrist (gS13) 3 2 = (none, gS14) := by decide

set_option maxHeartbeats 2000000 in
theorem seqC1_step15 :
    Game.play_move zeroZobrist (gS14) 2 4 = (none, gS15) := by decide

set_option maxHeartbeats 2000000 in
theorem seqC1_step16 :
    Game.play_move zeroZobrist (gS15) 4 2 = (none, gS16) := by decide

set_option maxHeartbeats 2000000 in
theorem seqC1_step17 :
    Game.play_move zeroZobrist (gS16) 2 5 = (none, gS17) := by decide

theorem seqC1_runOps :
    runOps zeroZobrist (initGame zeroZobrist) (playOps seqC1) = some gS17 := by
  simp only [seqC1, playOps, List.map, runOps, seqC1_step1, seqC1_step2, seqC1_step3, seqC1_step4, seqC1_step5, seqC1_step6, seqC1_step7, seqC1_step8, seqC1_step9, seqC1_step10, seqC1_step11, seqC1_step12, seqC1_step13, seqC1_step14, seqC1_step15, seqC1_step16, seqC1_step17]

/-! ## Claim theorems: the rules engine -/

/-- **C1, amended.**  For every reachable game state, if `available_moves()`
is empty then the macro winner or the macro drawn flag is set, and a drawn
game has no available moves.  (The original claim's converse — that a set
macro winner empties `available_moves()` — is false: see the
counterexample; `available_moves` never consults the macro flags.) -/
theorem availableMoves_empty_resolution_reachable {z : Zobrist} {g : Game}
    (h : Reachable z g) :
    (g.available_moves = [] → g.winner.isSome = true ∨ g.drawn = true) ∧
    (g.drawn = true → g.available_moves = []) :=
  ⟨(reachable_inv h).2.1, (reachable_inv h).2.2.1⟩

theorem availableMoves_empty_resolution_reachable_witness :
    ((initGame zeroZobrist).available_moves = [] →
      (initGame zeroZobrist).winner.isSome = true ∨ (initGame zeroZobrist).drawn = true) ∧
    ((initGame zeroZobrist).drawn = true → (initGame zeroZobrist).available_moves = []) :=
  availableMoves_empty_resolution_reachable ⟨[], rfl⟩

/-- **C1, counterexample.**  A reachable state (the 17 legal moves of
`seqC1` from the fresh game) whose macro winner is `X` and which is not
drawn, while `available_moves()` is still nonempty — refuting
"available_moves() is empty iff the macro winner is set or the macro drawn
flag is set". -/
theorem availableMoves_nonempty_after_win_cex :
    Reachable zeroZobrist gS17 ∧ gS17.winner = some Player.X ∧ gS17.drawn = false ∧
      gS17.available_moves ≠ [] :=
  ⟨⟨playOps seqC1, seqC1_runOps⟩, by decide, by decide, by decide⟩

/-- **C3.**  After any sequence of successful `play_move` calls and clones
from a fresh game, the incrementally maintained hash equals the hash
recomputed from scratch over `(boards, currentPlayer, forcedBoard)`: XOR of
the piece keys of the occupied cells, the side key exactly when `O` moves,
and the forced-board key.  Stated for every key table, hence for the
table `random.Random(7777)` produces. -/
theorem zobrist_incremental_eq_scratch (z : Zobrist) (ops : List GameOp) {g : Game}
    (h : runOps z (initGame z) ops = some g) : g.zkey = scratchHash z g :=
  (runOps_inv ops (inv_init z) h).2.2.2

/-- The state after `X` plays `(0, 4)` under the power-of-two key table. -/
def gAfter04 : Game :=
  { boards :=
      [⟨[cE, cE, cE, cE, cX, cE, cE, cE, cE], none, false⟩,
       ⟨[cE, cE, cE, cE, cE, cE, cE, cE, cE], none, false⟩,
       ⟨[cE, cE, cE, cE, cE, cE, cE, cE, cE], none, false⟩,
       ⟨[cE, cE, cE, cE, cE, cE, cE, cE, cE], none, false⟩,
       ⟨[cE, cE, cE, cE, cE, cE, cE, cE, cE], none, false⟩,
       ⟨[cE, cE, cE, cE, cE, cE, cE, cE, cE], none, false⟩,
       ⟨[cE, cE, cE, cE, cE, cE, cE, cE, cE], none, false⟩,
       ⟨[cE, cE, cE, cE, cE, cE, cE, cE, cE], none, false⟩,
       ⟨[cE, cE, cE, cE, cE, cE, cE, cE, cE], none, false⟩]
    current_player := Player.O
    next_board_index := some 4
    winner := none
    drawn := false
    zkey := 192918216127679185202886397918549358594583095673088 }

theorem gAfter04_step :
    Game.play_move powZobrist (initGame powZobrist) 0 4 = (none, gAfter04) := by decide

theorem gAfter04_runOps :
    runOps powZobrist (initGame powZobrist) (playOps [(0, 4)] ++ [GameOp.copy]) =
      some gAfter04 := by
  simp only [playOps, List.map, List.cons_append, List.nil_append, runOps, gAfter04_step,
    clone_eq]

theorem zobrist_incremental_eq_scratch_witness :
    gAfter04.zkey = scratchHash powZobrist gAfter04 :=
  zobrist_incremental_eq_scratch powZobrist (playOps [(0, 4)] ++ [GameOp.copy]) gAfter04_runOps

/-- **C7.**  Whenever `play_move` fails — `GameFinished`, `IllegalMove`, or
any other error — the returned state (the state at the moment the exception
is raised) is exactly the input state: validation happens before any
mutation, and the mutating tail of the method cannot fail on a well-formed
state once the legality gate has passed. -/
theorem play_move_error_preserves (z : Zobrist) (g : Game) (big cell : Int)
    (e : MoveError) (g'' : Game) (hwf : g.WF)
    (h : g.play_move z big cell = (some e, g'')) : g'' = g := by
  by_cases hres : g.winner.isSome = true ∨ g.drawn = true
  · rw [Game.play_move, if_pos hres] at h
    injection h with h1 h2
    exact h2.symm
  by_cases hmem : (big, cell) ∈ g.available_moves.map (fun m => ((m.1 : Int), (m.2 : Int)))
  · obtain ⟨bi, ci, rfl, rfl, h3⟩ := of_mem_available_int hmem
    rw [play_move_eq_step z hwf hres h3] at h
    injection h with h1 h2
    exact absurd h1 (by simp)
  · rw [Game.play_move, if_neg hres, if_neg hmem] at h
    injection h with h1 h2
    exact h2.symm

theorem play_move_error_preserves_witness :
    ((initGame zeroZobrist).play_move zeroZobrist 9 0).2 = initGame zeroZobrist :=
  play_move_error_preserves zeroZobrist (initGame zeroZobrist) 9 0 MoveError.illegalMove
    ((initGame zeroZobrist).play_move zeroZobrist 9 0).2 (by decide) (by decide)

/-- **C9.**  After every successful `play_move(b, c)`, the forced board is
`some c` exactly when sub-board `c` is live in the resulting state
(not won, not drawn, not full — including the case `b = c` where the move
itself resolves board `c`), and `none` otherwise. -/
theorem forced_board_after_play (z : Zobrist) (g g' : Game) (big cell : Int) (hwf : g.WF)
    (h : g.play_move z big cell = (none, g')) :
    ∃ ci : Nat, cell = (ci : Int) ∧
      g'.next_board_index =
        (if (g'.boards.getD ci emptyBoard).liveB then some ci else none) := by
  obtain ⟨-, bi, ci, -, rfl, hmem, rfl⟩ := play_move_ok_char hwf h
  refine ⟨ci, rfl, ?_⟩
  rw [stepGame_nbi, stepNbi, stepGame_boards]
  rw [(update_global_state_fields (stepMid z g bi ci)).1]
  rfl

theorem forced_board_after_play_witness :
    ((initGame zeroZobrist).play_move zeroZobrist 0 4).2.next_board_index = some 4 := by
  obtain ⟨ci, hci, hnb⟩ :=
    forced_board_after_play zeroZobrist (initGame zeroZobrist)
      ((initGame zeroZobrist).play_move zeroZobrist 0 4).2 0 4 (by decide) (by decide)
  have hci4 : ci = 4 := by omega
  subst hci4
  rw [hnb]
  decide

/-- **C10, amended.**  For every well-formed state and all integer
arguments with a board or cell index outside `[0, 8]`, `play_move` fails at
a guard before any indexing or mutation and returns the state unchanged:
with `IllegalMove` from the legality gate when the game is unresolved, and
with `GameFinished` when it is already resolved (the one divergence from
the original claim).  In particular the out-of-range access inside
`SmallBoard` is unreachable and no index error can escape. -/
theorem out_of_range_rejected_at_gate (z : Zobrist) (g : Game) (big cell : Int) (hwf : g.WF)
    (hoor : big < 0 ∨ 9 ≤ big ∨ cell < 0 ∨ 9 ≤ cell) :
    (¬(g.winner.isSome = true ∨ g.drawn = true) →
      g.play_move z big cell = (some .illegalMove, g)) ∧
    ((g.winner.isSome = true ∨ g.drawn = true) →
      g.play_move z big cell = (some .gameFinished, g)) := by
  constructor
  · intro hres
    have hnm : (big, cell) ∉ g.available_moves.map (fun m => ((m.1 : Int), (m.2 : Int))) := by
      intro hmem
      obtain ⟨bi, ci, rfl, rfl, h3⟩ := of_mem_available_int hmem
      obtain ⟨hbi, hci, -, -⟩ := of_mem_available_moves hwf h3
      rcases hoor with h | h | h | h <;> omega
    rw [Game.play_move, if_neg hres, if_neg hnm]
  · intro hres
    rw [Game.play_move, if_pos hres]

theorem out_of_range_rejected_at_gate_witness :
    (initGame zeroZobrist).play_move zeroZobrist 9 (-1) =
      (some MoveError.illegalMove, initGame zeroZobrist) :=
  (out_of_range_rejected_at_gate zeroZobrist (initGame zeroZobrist) 9 (-1)
    (by decide) (by decide)).1 (by decide)

/-- **C10, counterexample.**  On a finished reachable game (`seqC1`, macro
winner set) an out-of-range `play_move` raises `GameFinished`, not the
illegal-move error the claim promises for every game state. -/
theorem out_of_range_on_finished_game_cex :
    Reachable zeroZobrist gS17 ∧
    gS17.play_move zeroZobrist 9 9 = (some MoveError.gameFinished, gS17) ∧
    some MoveError.gameFinished ≠ some MoveError.illegalMove :=
  ⟨⟨playOps seqC1, seqC1_runOps⟩, by decide, by decide⟩

/-- **C5, amended.**  `SmallBoard.place` fails with `AlreadyResolved` when
the winner or drawn flag is set; on a live board with nine cells it fails
with `CellOccupied` on a non-empty target and otherwise succeeds, mutating
exactly the addressed cell before the local-state recompute.  There is no
`OutOfRange` error: an index in `[-9, -1]` silently wraps to `idx + 9`
(Python list indexing), and only indices `≥ 9` or `< -9` raise, as an
uncaught `IndexError`. -/
theorem place_behavior (b : SmallBoard) (p : Player) (idx : Int) :
    (b.winner.isSome = true ∨ b.drawn = true → b.place p idx = .error .alreadyResolved) ∧
    (b.winner = none → b.drawn = false → b.cells.length = 9 →
      ((9 ≤ idx ∨ idx < -9 → b.place p idx = .error .indexOutOfBounds) ∧
       (∀ i : Nat, i < 9 → (idx = (i : Int) ∨ idx = (i : Int) - 9) →
         ((b.cells.getD i none ≠ none → b.place p idx = .error .cellOccupied) ∧
          (b.cells.getD i none = none →
            b.place p idx =
              .ok (SmallBoard.update_state { b with cells := b.cells.set i (some p) })))))) := by
  constructor
  · intro hres
    rw [SmallBoard.place, if_pos hres]
  · intro hw hd hlen
    have hres : ¬(b.winner.isSome = true ∨ b.drawn = true) := by simp [hw, hd]
    constructor
    · intro hoor
      have hpi : pyIndex b.cells.length idx = none := by
        rw [hlen]
        unfold pyIndex
        rw [if_neg (by omega), if_neg (by omega)]
      rw [SmallBoard.place, if_neg hres, hpi]
    · intro i hi hidx
      have hpi : pyIndex b.cells.length idx = some i := by
        rw [hlen]
        unfold pyIndex
        rcases hidx with rfl | rfl
        · rw [if_pos (by omega)]
          simp
        · rw [if_neg (by omega), if_pos (by omega)]
          congr 1
          omega
      constructor
      · intro hocc
        have hs : (b.cells.getD i none).isSome = true := by
          rcases hh : b.cells.getD i none with _ | q
          · exact absurd hh hocc
          · rfl
        rw [SmallBoard.place, if_neg hres, hpi]
        simp only []
        rw [if_pos hs]
      · intro hemp
        rw [SmallBoard.place, if_neg hres, hpi]
        simp only []
        rw [if_neg (by rw [hemp]; simp)]

theorem place_behavior_witness :
    emptyBoard.place Player.X 4 =
      .ok (SmallBoard.update_state
        { emptyBoard with cells := emptyBoard.cells.set 4 (some Player.X) }) :=
  (((place_behavior emptyBoard Player.X 4).2 (by decide) (by decide) (by decide)).2
    4 (by decide) (Or.inl (by decide))).2 (by decide)

/-- **C5, counterexample.**  The claim demands an `OutOfRange` failure for
every index outside `[0, 8]`, including every negative index; but on a
fresh board `place(X, -1)` succeeds and writes cell 8 (Python negative
indexing) — there is no out-of-range check in the code. -/
theorem place_negative_index_no_error_cex :
    (emptyBoard.place Player.X (-1)).toOption =
      some { cells := [none, none, none, none, none, none, none, none, some Player.X],
             winner := none, drawn := false } := by
  decide

/-! ## Claim C8: macro winner detection -/

theorem lineWinnerBig_eq_some_of {bb : List BigCell} {t : Nat × Nat × Nat} {p : Player}
    (h1 : bb.getD t.1 .ongoing = BigCell.ofPlayer p)
    (h2 : bb.getD t.2.1 .ongoing = BigCell.ofPlayer p)
    (h3 : bb.getD t.2.2 .ongoing = BigCell.ofPlayer p) :
    lineWinnerBig bb t = some p := by
  rw [lineWinnerBig, h1, h2, h3]
  cases p <;> rfl

theorem of_lineWinnerBig_eq_some {bb : List BigCell} {t : Nat × Nat × Nat} {p : Player}
    (h : lineWinnerBig bb t = some p) :
    bb.getD t.1 .ongoing = BigCell.ofPlayer p ∧ bb.getD t.2.1 .ongoing = BigCell.ofPlayer p ∧
      bb.getD t.2.2 .ongoing = BigCell.ofPlayer p := by
  rcases hc : bb.getD t.1 BigCell.ongoing with _ | _ | _ | _ <;>
    rw [lineWinnerBig, hc] at h
  · simp only [BigCell.player?] at h
    split at h
    · next hcond =>
      obtain ⟨ha, hb⟩ := hcond
      cases h
      exact ⟨rfl, ha, hb⟩
    · simp at h
  · simp only [BigCell.player?] at h
    split at h
    · next hcond =>
      obtain ⟨ha, hb⟩ := hcond
      cases h
      exact ⟨rfl, ha, hb⟩
    · simp at h
  · simp [BigCell.player?] at h
  · simp [BigCell.player?] at h

theorem bigWinner_ne_none_iff {bb : List BigCell} :
    bigWinner bb ≠ none ↔
      ∃ t ∈ winningLines, ∃ p : Player,
        bb.getD t.1 .ongoing = BigCell.ofPlayer p ∧
        bb.getD t.2.1 .ongoing = BigCell.ofPlayer p ∧
        bb.getD t.2.2 .ongoing = BigCell.ofPlayer p := by
  rw [bigWinner, ne_eq, List.head?_eq_none_iff]
  constructor
  · intro h
    rcases hl : winningLines.filterMap (lineWinnerBig bb) with _ | ⟨p, rest⟩
    · exact absurd hl h
    · have hp : p ∈ winningLines.filterMap (lineWinnerBig bb) := by
        rw [hl]; exact List.mem_cons_self _ _
      obtain ⟨t, ht, hsome⟩ := List.mem_filterMap.mp hp
      obtain ⟨h1, h2, h3⟩ := of_lineWinnerBig_eq_some hsome
      exact ⟨t, ht, p, h1, h2, h3⟩
  · rintro ⟨t, ht, p, h1, h2, h3⟩ hnil
    have := List.filterMap_eq_nil_iff.mp hnil t ht
    rw [lineWinnerBig_eq_some_of h1 h2 h3] at this
    exact Option.some_ne_none p this

/-- **C8.**  With no macro winner yet set, the recompute sets the macro
winner exactly when one of the 8 winning triples of the 9-symbol sub-board
summary holds three identical `X`/`O` symbols (a drawn, grey sub-board
never matches, an ongoing one neither); moreover three identical symbols
on the first triple `(0,1,2)` produce exactly that player as winner. -/
theorem global_winner_iff_line (g : Game) (h : g.winner = none) :
    ((g.update_global_state).winner.isSome = true ↔
      ∃ t ∈ winningLines, ∃ p : Player,
        g.big_board_state.getD t.1 .ongoing = BigCell.ofPlayer p ∧
        g.big_board_state.getD t.2.1 .ongoing = BigCell.ofPlayer p ∧
        g.big_board_state.getD t.2.2 .ongoing = BigCell.ofPlayer p) ∧
    (∀ p : Player,
      g.big_board_state.getD 0 .ongoing = BigCell.ofPlayer p →
      g.big_board_state.getD 1 .ongoing = BigCell.ofPlayer p →
      g.big_board_state.getD 2 .ongoing = BigCell.ofPlayer p →
      (g.update_global_state).winner = some p) := by
  constructor
  · constructor
    · intro hs
      rw [← bigWinner_ne_none_iff]
      intro hnone
      by_cases hemp : g.available_moves.isEmpty = true
      · rw [update_gs_of_none_empty hnone hemp] at hs
        simp at hs
      · rw [update_gs_of_none_nonempty hnone hemp, h] at hs
        simp at hs
    · intro hex
      have hne := bigWinner_ne_none_iff.mpr hex
      rcases hbw : bigWinner g.big_board_state with _ | v
      · exact absurd hbw hne
      · rw [update_gs_of_winner hbw]
        rfl
  · intro p h0 h1 h2
    have hline : lineWinnerBig g.big_board_state (0, 1, 2) = some p :=
      lineWinnerBig_eq_some_of h0 h1 h2
    have hbw : bigWinner g.big_board_state = some p := by
      rw [bigWinner, winningLines]
      rw [List.filterMap_cons, hline]
      rfl
    rw [update_gs_of_winner hbw]

/-- Boards 0, 1, 2 captured by `X`, everything else open. -/
def gW8 : Game :=
  { boards :=
      [⟨[cX, cX, cX, cE, cE, cE, cE, cE, cE], some Player.X, false⟩,
       ⟨[cE, cX, cX, cX, cE, cE, cE, cE, cE], some Player.X, false⟩,
       ⟨[cX, cE, cX, cE, cX, cE, cE, cE, cE], some Player.X, false⟩,
       emptyBoard, emptyBoard, emptyBoard, emptyBoard, emptyBoard, emptyBoard]
    current_player := Player.O
    next_board_index := none
    winner := none
    drawn := false
    zkey := 0 }

theorem global_winner_iff_line_witness : (gW8.update_global_state).winner = some Player.X :=
  (global_winner_iff_line gW8 rfl).2 Player.X (by decide) (by decide) (by decide)

/-! ## Search-engine lemmas -/

instance {ε α : Type} [DecidableEq ε] [DecidableEq α] : DecidableEq (Except ε α) := fun a b =>
  match a, b with
  | .ok x, .ok y => if h : x = y then .isTrue (by rw [h]) else .isFalse (by simp [h])
  | .error x, .error y => if h : x = y then .isTrue (by rw [h]) else .isFalse (by simp [h])
  | .ok _, .error _ => .isFalse (by simp)
  | .error _, .ok _ => .isFalse (by simp)

theorem ttGet_nil (k : Nat) : ttGet [] k = none := rfl

theorem ttGet_set_self (tt : TT) (k : Nat) (e : TTEntry) : ttGet (ttSet tt k e) k = some e := by
  simp [ttGet, ttSet, List.find?]

theorem minimaxAB_zero (z : Zobrist) (me : Player) (g : Game) (α β : Score) (maxim : Bool)
    (tt : TT) : minimaxAB z me 0 g α β maxim tt = .ok (.fin (evaluateQ me g), none, tt) := rfl

theorem probeTT_inl_best {e : TTEntry} {d : Nat} {α β : Score} {s : Score}
    {m : Option (Nat × Nat)} (h : probeTT e d α β = .inl (s, m)) :
    s = e.score ∧ m = e.best_move := by
  simp only [probeTT] at h
  repeat' split at h
  all_goals
    first
      | (simp only [Sum.inl.injEq, Prod.mk.injEq] at h
         exact ⟨h.1.symm, h.2.symm⟩)
      | simp at h

/-- Every stored move in the table is `none`. -/
def TTNoBest (tt : TT) : Prop :=
  ∀ k e, ttGet tt k = some e → e.best_move = none

theorem ttNoBest_nil : TTNoBest [] := fun _ _ h => by rw [ttGet_nil] at h; cases h

theorem ttNoBest_set {tt : TT} {k : Nat} {e : TTEntry} (htt : TTNoBest tt)
    (he : e.best_move = none) : TTNoBest (ttSet tt k e) := by
  intro k' e' h
  rw [ttGet, ttSet] at h
  rcases hb : ((k, e).1 == k') with _ | _
  · rw [List.find?_cons_of_neg _ (by simp [hb])] at h
    exact htt k' e' h
  · rw [List.find?_cons_of_pos _ (by simp [hb])] at h
    cases h
    exact he

/-- On a resolved position, or one with no moves, the search always
returns `none` as its move, and keeps the table free of best moves. -/
theorem minimaxAB_dead (z : Zobrist) (me : Player) {g : Game}
    (hg : g.winner.isSome = true ∨ g.drawn = true ∨ g.available_moves = []) :
    ∀ (d : Nat) (α β : Score) (maxim : Bool) (tt : TT), TTNoBest tt →
      ∃ v tt', minimaxAB z me d g α β maxim tt = .ok (v, none, tt') ∧ TTNoBest tt' := by
  intro d
  cases d with
  | zero => intro α β maxim tt htt; exact ⟨_, tt, rfl, htt⟩
  | succ d =>
    intro α β maxim tt htt
    by_cases hres : g.winner.isSome = true ∨ g.drawn = true
    · have hm : minimaxAB z me (d + 1) g α β maxim tt =
          .ok (.fin (evaluateQ me g), none, tt) := by
        simp only [minimaxAB]
        rw [if_pos hres]
      exact ⟨_, tt, hm, htt⟩
    · have hmv : g.available_moves = [] := by tauto
      have hmoves : ∀ hit, orderedMoves me g hit = [] := by
        intro hit
        unfold orderedMoves
        rcases hit with _ | e
        · simp [hmv]
        · simp [hmv]
          split <;> rfl
      rcases hhit : ttGet tt g.zobrist_hash with _ | e
      · cases maxim
        · have hm : minimaxAB z me (d + 1) g α β false tt =
              .ok (.posInf, none, ttSet tt g.zobrist_hash ⟨d + 1, .posInf, .upper, none⟩) := by
            simp only [minimaxAB]
            rw [if_neg hres]
            simp only [hhit, hmoves]
            rfl
          exact ⟨_, _, hm, ttNoBest_set htt rfl⟩
        · have hm : minimaxAB z me (d + 1) g α β true tt =
              .ok (.negInf, none, ttSet tt g.zobrist_hash ⟨d + 1, .negInf, .lower, none⟩) := by
            simp only [minimaxAB]
            rw [if_neg hres]
            simp only [hhit, hmoves]
            rfl
          exact ⟨_, _, hm, ttNoBest_set htt rfl⟩
      · have hbn : e.best_move = none := htt _ _ hhit
        rcases hpr : probeTT e (d + 1) α β with ⟨s, m⟩ | ⟨a, b⟩
        · obtain ⟨-, hm⟩ := probeTT_inl_best hpr
          have heq : minimaxAB z me (d + 1) g α β maxim tt = .ok (s, none, tt) := by
            simp only [minimaxAB]
            rw [if_neg hres]
            simp only [hhit, hpr]
            rw [hm, hbn]
          exact ⟨s, tt, heq, htt⟩
        · cases maxim
          · have hm : minimaxAB z me (d + 1) g α β false tt =
                .ok (.posInf, none, ttSet tt g.zobrist_hash ⟨d + 1, .posInf, .upper, none⟩) := by
              simp only [minimaxAB]
              rw [if_neg hres]
              simp only [hhit, hpr, hmoves]
              rfl
            exact ⟨_, _, hm, ttNoBest_set htt rfl⟩
          · have hm : minimaxAB z me (d + 1) g α β true tt =
                .ok (.negInf, none, ttSet tt g.zobrist_hash ⟨d + 1, .negInf, .lower, none⟩) := by
              simp only [minimaxAB]
              rw [if_neg hres]
              simp only [hhit, hpr, hmoves]
              rfl
            exact ⟨_, _, hm, ttNoBest_set htt rfl⟩

/-- The iterative-deepening loop of `choose` cannot produce a best move on
a resolved or move-less position. -/
theorem idLoop_none (z : Zobrist) (me : Player) {g : Game}
    (hg : g.winner.isSome = true ∨ g.drawn = true ∨ g.available_moves = []) :
    ∀ (ds : List Nat) (α β : Score) (tt : TT), TTNoBest tt →
      ∃ tt', idLoop z me g ds α β none tt = .ok (none, tt') := by
  intro ds
  induction ds with
  | nil => intro α β tt htt; exact ⟨tt, rfl⟩
  | cons d ds ih =>
    intro α β tt htt
    obtain ⟨v, tt1, hm, htt1⟩ := minimaxAB_dead z me hg d α β true tt htt
    obtain ⟨tt', hloop⟩ := ih (v.subC 50) (v.addC 50) tt1 htt1
    refine ⟨tt', ?_⟩
    simp only [idLoop, hm]
    exact hloop

/-! ## Claim C6: `choose` and `NoLegalMoves` -/

/-- **C6, amended.**  With the engine on turn, `choose` fails with the
no-legal-moves error **iff** `available_moves()` is empty.  A resolved
position that still has available moves does not fail: the engine falls
back to the first available move (see the counterexample). -/
theorem choose_noLegalMoves_iff (z : Zobrist) (me : Player) (depthCfg : Nat) (g : Game)
    (h : g.current_player = me) :
    choose z me depthCfg g = .error .noValidMoves ↔ g.available_moves = [] := by
  unfold choose
  rw [if_neg (by simp [h])]
  constructor
  · intro hc
    rcases hid : idLoop z me g (List.range' 1 (max 1 depthCfg)) .negInf .posInf none [] with
      e | ⟨m?, tt⟩
    · rw [hid] at hc
      simp at hc
    · rcases m? with _ | m
      · rcases hm : g.available_moves with _ | ⟨mv, rest⟩
        · rfl
        · rw [hid, hm] at hc
          simp at hc
      · rw [hid] at hc
        simp at hc
  · intro hmv
    obtain ⟨tt', hid⟩ :=
      idLoop_none z me (Or.inr (Or.inr hmv)) (List.range' 1 (max 1 depthCfg))
        .negInf .posInf [] ttNoBest_nil
    simp [hid, hmv]

theorem choose_noLegalMoves_iff_witness :
    choose zeroZobrist Player.X 1 (initGame zeroZobrist) = .error .noValidMoves ↔
      (initGame zeroZobrist).available_moves = [] :=
  choose_noLegalMoves_iff zeroZobrist Player.X 1 (initGame zeroZobrist) rfl

set_option maxHeartbeats 8000000 in
set_option maxRecDepth 100000 in
/-- **C6, counterexample.**  On the reachable, already-won state `gS17`
(macro winner `X`, engine `O` on turn), `choose` does not fail with
`NoLegalMoves`: it returns the first available move `(5, 2)` — refuting
"it never returns a move for a position whose game is already won". -/
theorem choose_returns_move_after_win_cex :
    Reachable zeroZobrist gS17 ∧ gS17.winner = some Player.X ∧
      gS17.current_player = Player.O ∧
      choose zeroZobrist Player.O 3 gS17 = .ok (5, 2) :=
  ⟨⟨playOps seqC1, seqC1_runOps⟩, by decide, by decide, by decide⟩

/-! ## Claim C4: transposition-table bound kinds

The position `gC2` below is the engineered test position shared by the
C2 and C4 analyses: `X` to move, forced to sub-board 4 (legal moves
`(4,3)`, `(4,4)`, `(4,7)`), macro board undecided. -/

def gC2 : Game :=
  { boards :=
      [ ⟨[cO,cO,cE, cX,cX,cO, cO,cX,cX], none, false⟩,
        ⟨[cX,cX,cX, cO,cO,cE, cE,cE,cE], some Player.X, false⟩,
        ⟨[cX,cX,cX, cO,cE,cO, cE,cE,cE], some Player.X, false⟩,
        ⟨[cX,cX,cX, cE,cO,cO, cE,cE,cE], some Player.X, false⟩,
        ⟨[cX,cO,cX, cE,cE,cO, cO,cE,cX], none, false⟩,
        ⟨[cX,cO,cO, cO,cX,cX, cE,cX,cO], none, false⟩,
        ⟨[cO,cO,cO, cX,cX,cE, cE,cE,cE], some Player.O, false⟩,
        ⟨[cO,cO,cE, cX,cX,cO, cO,cX,cX], none, false⟩,
        ⟨[cO,cO,cO, cX,cE,cX, cE,cE,cE], some Player.O, false⟩ ]
    current_player := .X
    next_board_index := some 4
    winner := none
    drawn := false
    zkey := 0 }

/-- **C4, amended.**  What the store actually keys the bound kind on is
the **best-move slot**, not the cutoff: on a table miss, the entry stored
for the node is `Exact` iff some move improved on the loop's seed value
(`best_move` is set), `Lower` iff not while maximizing, `Upper` iff not
while minimizing — irrespective of whether the loop broke on a cutoff. -/
theorem tt_store_flag_from_best_move (z : Zobrist) (me : Player) (d : Nat) (g : Game)
    (α β : Score) (maxim : Bool) (tt : TT) (v : Score) (best : Option (Nat × Nat)) (tt' : TT)
    (hres : ¬(g.winner.isSome = true ∨ g.drawn = true))
    (hmiss : ttGet tt g.zobrist_hash = none)
    (h : minimaxAB z me (d + 1) g α β maxim tt = .ok (v, best, tt')) :
    ttGet tt' g.zobrist_hash =
      some ⟨d + 1, v,
        (if best.isSome then Flag.exact else if maxim then Flag.lower else Flag.upper),
        best⟩ := by
  cases maxim
  · simp only [minimaxAB] at h
    rw [if_neg hres] at h
    simp only [hmiss, Bool.false_eq_true, if_false] at h
    rcases hr : minLoop z (fun c a b t => minimaxAB z me d c a b true t) g
        (orderedMoves me g none) .posInf none α β tt with e | ⟨value, b2, tt2, cut⟩
    · rw [hr] at h
      simp at h
    · rw [hr] at h
      simp only [Except.ok.injEq, Prod.mk.injEq] at h
      obtain ⟨hv, hb, ht⟩ := h
      subst hv
      subst hb
      rw [← ht, ttGet_set_self]
      cases b2 <;> rfl
  · simp only [minimaxAB] at h
    rw [if_neg hres] at h
    simp only [hmiss, eq_self_iff_true, if_true] at h
    rcases hr : maxLoop z (fun c a b t => minimaxAB z me d c a b false t) g
        (orderedMoves me g none) .negInf none α β tt with e | ⟨value, b2, tt2, cut⟩
    · rw [hr] at h
      simp at h
    · rw [hr] at h
      simp only [Except.ok.injEq, Prod.mk.injEq] at h
      obtain ⟨hv, hb, ht⟩ := h
      subst hv
      subst hb
      rw [← ht, ttGet_set_self]
      cases b2 <;> rfl

set_option maxHeartbeats 12000000 in
set_option maxRecDepth 100000 in
theorem tt_store_flag_from_best_move_witness :
    ttGet [(gC2.zobrist_hash, ⟨1, .fin (136/5), Flag.exact, some (4, 4)⟩)] gC2.zobrist_hash =
      some ⟨1, .fin (136/5),
        (if (some ((4 : Nat), (4 : Nat))).isSome then Flag.exact
         else if (true : Bool) then Flag.lower else Flag.upper),
        some (4, 4)⟩ :=
  tt_store_flag_from_best_move powZobrist Player.X 0 gC2 .negInf .posInf true []
    (.fin (136/5)) (some (4, 4))
    [(gC2.zobrist_hash, ⟨1, .fin (136/5), Flag.exact, some (4, 4)⟩)]
    (by decide) (by decide) (by decide)

set_option maxHeartbeats 12000000 in
set_option maxRecDepth 100000 in
/-- **C4, counterexample.**  Searching `gC2` at depth 1 with the narrow
window `(0, 1)`: the maximizing move loop breaks on an alpha-beta cutoff
after the first child (`cut = true`, moves `(4,3)`, `(4,7)` unexplored),
yet the entry stored for the node carries flag `Exact` — refuting "Lower
exactly when the loop was cut off while maximizing". -/
theorem tt_store_flag_exact_after_cutoff_cex :
    maxLoop powZobrist (fun c a b t => minimaxAB powZobrist Player.X 0 c a b false t) gC2
        (orderedMoves Player.X gC2 (ttGet [] gC2.zobrist_hash)) .negInf none
        (.fin 0) (.fin 1) [] =
      .ok (.fin (136/5), some (4, 4), [], true) ∧
    minimaxAB powZobrist Player.X 1 gC2 (.fin 0) (.fin 1) true [] =
      .ok (.fin (136/5), some (4, 4),
        [(gC2.zobrist_hash, ⟨1, .fin (136/5), Flag.exact, some (4, 4)⟩)]) :=
  ⟨by decide, by decide⟩

/-! ## Claim C2: alpha-beta versus plain minimax -/

theorem Score.ble_posInf_left {a : Score} : Score.ble .posInf a = true ↔ a = .posInf := by
  cases a <;> simp [Score.ble, Score.blt]

theorem maxScore_ne_posInf {a b : Score} (ha : a ≠ .posInf) (hb : b ≠ .posInf) :
    maxScore a b ≠ .posInf := by
  unfold maxScore
  split
  · exact hb
  · exact ha

theorem maxScore_negInf_left (a : Score) : maxScore .negInf a = a := by cases a <;> rfl

theorem maxScore_negInf_right (a : Score) : maxScore a .negInf = a := by cases a <;> rfl

theorem maxScore_posInf_left (a : Score) : maxScore .posInf a = .posInf := rfl

theorem maxScore_posInf_right (a : Score) : maxScore a .posInf = .posInf := by cases a <;> rfl

theorem maxScore_fin (a b : ℚ) : maxScore (.fin a) (.fin b) = .fin (max a b) := by
  unfold maxScore Score.blt
  by_cases h : a < b
  · rw [if_pos (by simpa using h), max_eq_right h.le]
  · rw [if_neg (by simpa using h), max_eq_left (not_lt.mp h)]

theorem maxScore_right_comm (b x y : Score) :
    maxScore (maxScore b x) y = maxScore (maxScore b y) x := by
  cases b <;> cases x <;> cases y <;>
    simp [maxScore_negInf_left, maxScore_negInf_right, maxScore_posInf_left,
      maxScore_posInf_right, maxScore_fin, max_assoc, max_comm, max_left_comm]

theorem plainMinimax_zero (z : Zobrist) (me : Player) (c : Game) (maxim : Bool) :
    plainMinimax z me 0 c maxim = .fin (evaluateQ me c) := rfl

/-- With an infinite `beta` the maximizing loop can never break on the
cutoff test, so its value is the plain `maxScore`-fold of the one-ply
child evaluations, in the order the moves were supplied. -/
theorem maxLoop_fullwidth (z : Zobrist) (me : Player) (g : Game) :
    ∀ (ms : List (Nat × Nat)) (value : Score) (best : Option (Nat × Nat)) (alpha : Score)
      (tt : TT) (r : Score) (b' : Option (Nat × Nat)) (tt2 : TT) (cut : Bool),
      value ≠ .posInf → alpha ≠ .posInf →
      maxLoop z (fun c a b t => minimaxAB z me 0 c a b false t) g ms value best alpha
          .posInf tt = .ok (r, b', tt2, cut) →
      r = ms.foldl
          (fun w m => maxScore w (.fin (evaluateQ me ((Game.clone g).play_move z m.1 m.2).2)))
          value := by
  intro ms
  induction ms with
  | nil =>
    intro value best alpha tt r b' tt2 cut hv ha h
    rw [maxLoop] at h
    simp only [Except.ok.injEq, Prod.mk.injEq] at h
    exact h.1.symm
  | cons m ms ih =>
    intro value best alpha tt r b' tt2 cut hv ha h
    rw [maxLoop] at h
    rcases hp : (Game.clone g).play_move z m.1 m.2 with ⟨e?, child⟩
    rw [hp] at h
    rcases e? with _ | e
    · simp only [minimaxAB_zero] at h
      rcases hlt : Score.blt value (Score.fin (evaluateQ me child)) with _ | _
      · simp only [hlt, Bool.false_eq_true, if_false] at h
        have hvne : maxScore alpha value ≠ .posInf := maxScore_ne_posInf ha hv
        rw [if_neg (fun hb => hvne (Score.ble_posInf_left.mp hb))] at h
        have hr := ih value best (maxScore alpha value) tt r b' tt2 cut hv hvne h
        have hm : maxScore value (.fin (evaluateQ me child)) = value := by
          unfold maxScore
          rw [hlt]
          simp
        simp only [List.foldl_cons, hp, hm]
        exact hr
      · simp only [hlt, if_true] at h
        have hfne : (Score.fin (evaluateQ me child)) ≠ .posInf := by simp
        have hvne : maxScore alpha (.fin (evaluateQ me child)) ≠ .posInf :=
          maxScore_ne_posInf ha hfne
        rw [if_neg (fun hb => hvne (Score.ble_posInf_left.mp hb))] at h
        have hr := ih (.fin (evaluateQ me child)) (some m)
          (maxScore alpha (.fin (evaluateQ me child))) tt r b' tt2 cut hfne hvne h
        have hm : maxScore value (.fin (evaluateQ me child)) = .fin (evaluateQ me child) := by
          unfold maxScore
          rw [hlt]
          simp
        simp only [List.foldl_cons, hp, hm]
        exact hr
    · simp at h

instance : ∀ (z : Zobrist) (me : Player) (g : Game), RightCommutative
    (fun (w : Score) (m : Nat × Nat) =>
      maxScore w (.fin (evaluateQ me ((Game.clone g).play_move z m.1 m.2).2))) :=
  fun _ _ _ => ⟨fun b x y => maxScore_right_comm b _ _⟩

/-- **C2, amended.**  The equivalence with plain un-pruned minimax holds
for the first iterative-deepening iteration — depth 1, full window
`(-inf, +inf)`, empty table: its score equals `plainMinimax` at depth 1.
It fails for deeper iterations, whose aspiration window re-seeded to
`[s1 - 50, s1 + 50]` can cut the true score off (see the counterexample). -/
theorem alphaBeta_depth_one_eq_plain (z : Zobrist) (me : Player) (g : Game) (s : Score)
    (bm : Option (Nat × Nat)) (tt' : TT)
    (h : minimaxAB z me 1 g .negInf .posInf true [] = .ok (s, bm, tt')) :
    s = plainMinimax z me 1 g true := by
  have h' : minimaxAB z me (0 + 1) g .negInf .posInf true [] = .ok (s, bm, tt') := h
  by_cases hres : g.winner.isSome = true ∨ g.drawn = true
  · simp only [minimaxAB] at h'
    rw [if_pos hres] at h'
    simp only [Except.ok.injEq, Prod.mk.injEq] at h'
    have hp : plainMinimax z me (0 + 1) g true = .fin (evaluateQ me g) := by
      simp only [plainMinimax]
      rw [if_pos hres]
    exact h'.1.symm.trans hp.symm
  · simp only [minimaxAB] at h'
    rw [if_neg hres] at h'
    simp only [ttGet_nil, eq_self_iff_true, if_true] at h'
    rcases hr : maxLoop z (fun c a b t => Except.ok (.fin (evaluateQ me c), none, t)) g
        (orderedMoves me g none) .negInf none .negInf .posInf [] with e | ⟨value, b2, tt2, cut⟩
    · rw [hr] at h'
      simp at h'
    · rw [hr] at h'
      simp only [Except.ok.injEq, Prod.mk.injEq] at h'
      obtain ⟨hv, -, -⟩ := h'
      subst hv
      have hr' : maxLoop z (fun c a b t => minimaxAB z me 0 c a b false t) g
          (orderedMoves me g none) .negInf none .negInf .posInf [] =
          .ok (value, b2, tt2, cut) := hr
      have hfold := maxLoop_fullwidth z me g (orderedMoves me g none) .negInf none .negInf []
        value b2 tt2 cut (by simp) (by simp) hr'
      rw [hfold]
      have hp : plainMinimax z me (0 + 1) g true =
          (g.available_moves.map (fun m =>
            plainMinimax z me 0 ((Game.clone g).play_move z m.1 m.2).2 false)).foldl
              maxScore .negInf := by
        simp only [plainMinimax]
        rw [if_neg hres]
        simp only [eq_self_iff_true, if_true]
      have hplain : plainMinimax z me 1 g true =
          g.available_moves.foldl
            (fun w m => maxScore w (.fin (evaluateQ me ((Game.clone g).play_move z m.1 m.2).2)))
            .negInf := by
        rw [hp, List.foldl_map]
        rfl
      rw [hplain]
      have hord : orderedMoves me g none =
          g.available_moves.insertionSort
            (fun a b => moveHeuristic me g b ≤ moveHeuristic me g a) := rfl
      rw [hord]
      exact (List.perm_insertionSort _ g.available_moves).foldl_eq Score.negInf

set_option maxHeartbeats 12000000 in
set_option maxRecDepth 100000 in
theorem alphaBeta_depth_one_eq_plain_witness :
    Score.fin (136 / 5) = plainMinimax powZobrist Player.X 1 gC2 true :=
  alphaBeta_depth_one_eq_plain powZobrist Player.X gC2 (.fin (136 / 5)) (some (4, 4))
    [(gC2.zobrist_hash, ⟨1, .fin (136 / 5), Flag.exact, some (4, 4)⟩)]
    (by decide)

/-! ### The C2 counterexample: `choose`'s second iteration on `gC2`

Iteration 1 (depth 1, full window, empty table) scores `136/5`, so the
window for iteration 2 is re-seeded to `[-114/5, 386/5]`.  The deep search
is decomposed move by move below; the three children of `gC2` are spelled
out as literals. -/

def c43L : Game :=
  { boards :=
      [ ⟨[cO,cO,cE,cX,cX,cO,cO,cX,cX], none, false⟩,
        ⟨[cX,cX,cX,cO,cO,cE,cE,cE,cE], some Player.X, false⟩,
        ⟨[cX,cX,cX,cO,cE,cO,cE,cE,cE], some Player.X, false⟩,
        ⟨[cX,cX,cX,cE,cO,cO,cE,cE,cE], some Player.X, false⟩,
        ⟨[cX,cO,cX,cX,cE,cO,cO,cE,cX], none, false⟩,
        ⟨[cX,cO,cO,cO,cX,cX,cE,cX,cO], none, false⟩,
        ⟨[cO,cO,cO,cX,cX,cE,cE,cE,cE], some Player.O, false⟩,
        ⟨[cO,cO,cE,cX,cX,cO,cO,cX,cX], none, false⟩,
        ⟨[cO,cO,cO,cX,cE,cX,cE,cE,cE], some Player.O, false⟩ ]
    current_player := Player.O
    next_board_index := none
    winner := none
    drawn := false
    zkey := 6179228922635057538165179473026676062008940085379072 }

def c44L : Game :=
  { boards :=
      [ ⟨[cO,cO,cE,cX,cX,cO,cO,cX,cX], none, false⟩,
        ⟨[cX,cX,cX,cO,cO,cE,cE,cE,cE], some Player.X, false⟩,
        ⟨[cX,cX,cX,cO,cE,cO,cE,cE,cE], some Player.X, false⟩,
        ⟨[cX,cX,cX,cE,cO,cO,cE,cE,cE], some Player.X, false⟩,
        ⟨[cX,cO,cX,cE,cX,cO,cO,cE,cX], some Player.X, false⟩,
        ⟨[cX,cO,cO,cO,cX,cX,cE,cX,cO], none, false⟩,
        ⟨[cO,cO,cO,cX,cX,cE,cE,cE,cE], some Player.O, false⟩,
        ⟨[cO,cO,cE,cX,cX,cO,cO,cX,cX], none, false⟩,
        ⟨[cO,cO,cO,cX,cE,cX,cE,cE,cE], some Player.O, false⟩ ]
    current_player := Player.O
    next_board_index := none
    winner := none
    drawn := false
    zkey := 6179228922635057538165179473933370426719911966408704 }

def c47L : Game :=
  { boards :=
      [ ⟨[cO,cO,cE,cX,cX,cO,cO,cX,cX], none, false⟩,
        ⟨[cX,cX,cX,cO,cO,cE,cE,cE,cE], some Player.X, false⟩,
        ⟨[cX,cX,cX,cO,cE,cO,cE,cE,cE], some Player.X, false⟩,
        ⟨[cX,cX,cX,cE,cO,cO,cE,cE,cE], some Player.X, false⟩,
        ⟨[cX,cO,cX,cE,cE,cO,cO,cX,cX], none, false⟩,
        ⟨[cX,cO,cO,cO,cX,cX,cE,cX,cO], none, false⟩,
        ⟨[cO,cO,cO,cX,cX,cE,cE,cE,cE], some Player.O, false⟩,
        ⟨[cO,cO,cE,cX,cX,cO,cO,cX,cX], none, false⟩,
        ⟨[cO,cO,cO,cX,cE,cX,cE,cE,cE], some Player.O, false⟩ ]
    current_player := Player.O
    next_board_index := some 7
    winner := none
    drawn := false
    zkey := 1689495892754523773443459743991275626058525200875520 }

def e1C2 : TTEntry := ⟨1, .fin (136 / 5), .exact, some (4, 4)⟩

def tt1C2 : TT := [(0, e1C2)]

def ttAC2 : TT :=
  (6179228922635057538165179473933370426719911966408704,
    (⟨1, .fin (-10000), .exact, some (7, 2)⟩ : TTEntry)) :: tt1C2

def ttBC2 : TT :=
  (6179228922635057538165179473026676062008940085379072,
    (⟨1, .fin (-25), .exact, some (0, 2)⟩ : TTEntry)) :: ttAC2

def ttCC2 : TT :=
  (1689495892754523773443459743991275626058525200875520,
    (⟨1, .fin (-10000), .exact, some (7, 2)⟩ : TTEntry)) :: ttBC2

def ttFinalC2 : TT := (0, (⟨2, .fin (-25), .exact, some (4, 3)⟩ : TTEntry)) :: ttCC2

set_option maxHeartbeats 4000000 in
theorem c2_play44 :
    (Game.clone gC2).play_move powZobrist ((4 : ℕ) : ℤ) ((4 : ℕ) : ℤ) = (none, c44L) := by
  decide

set_option maxHeartbeats 4000000 in
theorem c2_play43 :
    (Game.clone gC2).play_move powZobrist ((4 : ℕ) : ℤ) ((3 : ℕ) : ℤ) = (none, c43L) := by
  decide

set_option maxHeartbeats 4000000 in
theorem c2_play47 :
    (Game.clone gC2).play_move powZobrist ((4 : ℕ) : ℤ) ((7 : ℕ) : ℤ) = (none, c47L) := by
  decide

theorem blt_fin_posInf (q : ℚ) : Score.blt (.fin q) .posInf = true := rfl

/-! Inside each one-ply-deeper reply search the engine only evaluates
until the window closes; the glue facts below are each a small, closed
computation. -/

theorem c2A_miss : ttGet tt1C2 c44L.zobrist_hash = none := by decide

theorem c2B_miss : ttGet ttAC2 c43L.zobrist_hash = none := by decide

theorem c2C_miss : ttGet ttBC2 c47L.zobrist_hash = none := by decide

set_option maxHeartbeats 4000000 in
set_option maxRecDepth 100000 in
theorem c2A_moves : orderedMoves Player.X c44L none = [(0, 2), (7, 2), (5, 6)] := by
  decide

set_option maxHeartbeats 4000000 in
set_option maxRecDepth 100000 in
theorem c2B_moves :
    orderedMoves Player.X c43L none = [(4, 4), (0, 2), (7, 2), (4, 7), (5, 6)] := by
  decide

set_option maxHeartbeats 4000000 in
set_option maxRecDepth 100000 in
theorem c2C_moves : orderedMoves Player.X c47L none = [(7, 2)] := by
  decide

theorem c2A_play1 :
    (Game.clone c44L).play_move powZobrist ((0 : ℕ) : ℤ) ((2 : ℕ) : ℤ) =
      (none, ((Game.clone c44L).play_move powZobrist ((0 : ℕ) : ℤ) ((2 : ℕ) : ℤ)).2) :=
  Prod.ext (by decide) rfl

theorem c2A_play2 :
    (Game.clone c44L).play_move powZobrist ((7 : ℕ) : ℤ) ((2 : ℕ) : ℤ) =
      (none, ((Game.clone c44L).play_move powZobrist ((7 : ℕ) : ℤ) ((2 : ℕ) : ℤ)).2) :=
  Prod.ext (by decide) rfl

theorem c2B_play1 :
    (Game.clone c43L).play_move powZobrist ((4 : ℕ) : ℤ) ((4 : ℕ) : ℤ) =
      (none, ((Game.clone c43L).play_move powZobrist ((4 : ℕ) : ℤ) ((4 : ℕ) : ℤ)).2) :=
  Prod.ext (by decide) rfl

theorem c2B_play2 :
    (Game.clone c43L).play_move powZobrist ((0 : ℕ) : ℤ) ((2 : ℕ) : ℤ) =
      (none, ((Game.clone c43L).play_move powZobrist ((0 : ℕ) : ℤ) ((2 : ℕ) : ℤ)).2) :=
  Prod.ext (by decide) rfl

theorem c2C_play1 :
    (Game.clone c47L).play_move powZobrist ((7 : ℕ) : ℤ) ((2 : ℕ) : ℤ) =
      (none, ((Game.clone c47L).play_move powZobrist ((7 : ℕ) : ℤ) ((2 : ℕ) : ℤ)).2) :=
  Prod.ext (by decide) rfl

set_option maxHeartbeats 8000000 in
set_option maxRecDepth 100000 in
theorem c2A_eval1 :
    evaluateQ Player.X ((Game.clone c44L).play_move powZobrist ((0 : ℕ) : ℤ) ((2 : ℕ) : ℤ)).2 =
      68 / 5 := by
  decide

set_option maxHeartbeats 8000000 in
set_option maxRecDepth 100000 in
theorem c2A_eval2 :
    evaluateQ Player.X ((Game.clone c44L).play_move powZobrist ((7 : ℕ) : ℤ) ((2 : ℕ) : ℤ)).2 =
      -10000 := by
  decide

set_option maxHeartbeats 8000000 in
set_option maxRecDepth 100000 in
theorem c2B_eval1 :
    evaluateQ Player.X ((Game.clone c43L).play_move powZobrist ((4 : ℕ) : ℤ) ((4 : ℕ) : ℤ)).2 =
      -(87 / 10) := by
  decide

set_option maxHeartbeats 8000000 in
set_option maxRecDepth 100000 in
theorem c2B_eval2 :
    evaluateQ Player.X ((Game.clone c43L).play_move powZobrist ((0 : ℕ) : ℤ) ((2 : ℕ) : ℤ)).2 =
      -25 := by
  decide

set_option maxHeartbeats 8000000 in
set_option maxRecDepth 100000 in
theorem c2C_eval1 :
    evaluateQ Player.X ((Game.clone c47L).play_move powZobrist ((7 : ℕ) : ℤ) ((2 : ℕ) : ℤ)).2 =
      -10000 := by
  decide

theorem c2s_A1 : minScore (Score.fin (386 / 5)) (Score.fin (68 / 5)) = Score.fin (68 / 5) := by
  decide

theorem c2s_A2 : Score.ble (Score.fin (68 / 5)) (Score.fin (-(114 / 5))) = false := by
  decide

theorem c2s_A3 : Score.blt (Score.fin (-10000)) (Score.fin (68 / 5)) = true := by
  decide

theorem c2s_A4 : minScore (Score.fin (68 / 5)) (Score.fin (-10000)) = Score.fin (-10000) := by
  decide

theorem c2s_A5 : Score.ble (Score.fin (-10000)) (Score.fin (-(114 / 5))) = true := by
  decide

theorem c2s_B1 :
    minScore (Score.fin (386 / 5)) (Score.fin (-(87 / 10))) = Score.fin (-(87 / 10)) := by
  decide

theorem c2s_B2 : Score.ble (Score.fin (-(87 / 10))) (Score.fin (-(114 / 5))) = false := by
  decide

theorem c2s_B3 : Score.blt (Score.fin (-25)) (Score.fin (-(87 / 10))) = true := by
  decide

theorem c2s_B4 : minScore (Score.fin (-(87 / 10))) (Score.fin (-25)) = Score.fin (-25) := by
  decide

theorem c2s_B5 : Score.ble (Score.fin (-25)) (Score.fin (-(114 / 5))) = true := by
  decide

theorem c2s_C1 :
    minScore (Score.fin (386 / 5)) (Score.fin (-10000)) = Score.fin (-10000) := by
  decide

/-- Reply search below `(4,4)`: the window closes after the second reply
`(7,2)` (an immediate macro win for the opponent). -/
theorem c2_recA :
    minimaxAB powZobrist Player.X 1 c44L (.fin (-(114 / 5))) (.fin (386 / 5)) false tt1C2 =
      .ok (.fin (-10000), some (7, 2), ttAC2) := by
  show minimaxAB powZobrist Player.X (0 + 1) c44L (.fin (-(114 / 5))) (.fin (386 / 5)) false
      tt1C2 = _
  rw [minimaxAB]
  rw [if_neg (by decide)]
  simp only [c2A_miss, Bool.false_eq_true, if_false, c2A_moves]
  simp only [minLoop]
  rw [c2A_play1, c2A_play2]
  simp only [minimaxAB_zero, c2A_eval1, c2A_eval2, blt_fin_posInf,
    c2s_A1, c2s_A2, c2s_A3, c2s_A4, c2s_A5,
    eq_self_iff_true, if_true, Bool.false_eq_true, if_false]
  rfl

/-- Reply search below `(4,3)`: the window closes after the second reply
`(0,2)`. -/
theorem c2_recB :
    minimaxAB powZobrist Player.X 1 c43L (.fin (-(114 / 5))) (.fin (386 / 5)) false ttAC2 =
      .ok (.fin (-25), some (0, 2), ttBC2) := by
  show minimaxAB powZobrist Player.X (0 + 1) c43L (.fin (-(114 / 5))) (.fin (386 / 5)) false
      ttAC2 = _
  rw [minimaxAB]
  rw [if_neg (by decide)]
  simp only [c2B_miss, Bool.false_eq_true, if_false, c2B_moves]
  simp only [minLoop]
  rw [c2B_play1, c2B_play2]
  simp only [minimaxAB_zero, c2B_eval1, c2B_eval2, blt_fin_posInf,
    c2s_B1, c2s_B2, c2s_B3, c2s_B4, c2s_B5,
    eq_self_iff_true, if_true, Bool.false_eq_true, if_false]
  rfl

/-- Reply search below `(4,7)`: the forced reply `(7,2)` is an immediate
macro win for the opponent. -/
theorem c2_recC :
    minimaxAB powZobrist Player.X 1 c47L (.fin (-(114 / 5))) (.fin (386 / 5)) false ttBC2 =
      .ok (.fin (-10000), some (7, 2), ttCC2) := by
  show minimaxAB powZobrist Player.X (0 + 1) c47L (.fin (-(114 / 5))) (.fin (386 / 5)) false
      ttBC2 = _
  rw [minimaxAB]
  rw [if_neg (by decide)]
  simp only [c2C_miss, Bool.false_eq_true, if_false, c2C_moves]
  simp only [minLoop]
  rw [c2C_play1]
  simp only [minimaxAB_zero, c2C_eval1, blt_fin_posInf,
    c2s_C1, c2s_A5,
    eq_self_iff_true, if_true, Bool.false_eq_true, if_false]
  rfl

theorem c2_hit : ttGet tt1C2 gC2.zobrist_hash = some e1C2 := by decide

theorem c2_probe :
    probeTT e1C2 (1 + 1) (.fin (-(114 / 5))) (.fin (386 / 5)) =
      .inr (.fin (-(114 / 5)), .fin (386 / 5)) := by
  decide

set_option maxHeartbeats 8000000 in
set_option maxRecDepth 100000 in
theorem c2_moves : orderedMoves Player.X gC2 (some e1C2) = [(4, 4), (4, 3), (4, 7)] := by
  decide

theorem c2_bltA : Score.blt Score.negInf (Score.fin (-10000)) = true := by
  decide

theorem c2_bltB : Score.blt (Score.fin (-10000)) (Score.fin (-25)) = true := by
  decide

theorem c2_bltC : Score.blt (Score.fin (-25)) (Score.fin (-10000)) = false := by
  decide

theorem c2_maxA :
    maxScore (Score.fin (-(114 / 5))) (Score.fin (-10000)) = Score.fin (-(114 / 5)) := by
  decide

theorem c2_maxB :
    maxScore (Score.fin (-(114 / 5))) (Score.fin (-25)) = Score.fin (-(114 / 5)) := by
  decide

theorem c2_bleA :
    Score.ble (Score.fin (386 / 5)) (Score.fin (-(114 / 5))) = false := by
  decide

/-- Iteration 2 of `choose` on `gC2`: depth 2, aspiration window
`(-114/5, 386/5)`, iteration-1 table.  The windowed search scores `-25`. -/
theorem c2_iter2 :
    minimaxAB powZobrist Player.X 2 gC2 (.fin (-(114 / 5))) (.fin (386 / 5)) true tt1C2 =
      .ok (.fin (-25), some (4, 3), ttFinalC2) := by
  show minimaxAB powZobrist Player.X (1 + 1) gC2 (.fin (-(114 / 5))) (.fin (386 / 5)) true tt1C2
    = _
  rw [minimaxAB]
  rw [if_neg (by decide)]
  simp only [c2_hit, c2_probe, c2_moves, eq_self_iff_true, if_true]
  simp only [maxLoop]
  rw [c2_play44, c2_play43, c2_play47]
  simp only [c2_recA, c2_recB, c2_recC,
    c2_bltA, c2_bltB, c2_bltC, c2_maxA, c2_maxB, c2_bleA,
    eq_self_iff_true, if_true, Bool.false_eq_true, if_false]
  rfl

set_option maxHeartbeats 12000000 in
set_option maxRecDepth 100000 in
theorem c2_plain43 :
    plainMinimax powZobrist Player.X 1
      ((Game.clone gC2).play_move powZobrist ((4 : ℕ) : ℤ) ((3 : ℕ) : ℤ)).2 false =
      .fin (-10000) := by
  decide

set_option maxHeartbeats 12000000 in
set_option maxRecDepth 100000 in
theorem c2_plain44 :
    plainMinimax powZobrist Player.X 1
      ((Game.clone gC2).play_move powZobrist ((4 : ℕ) : ℤ) ((4 : ℕ) : ℤ)).2 false =
      .fin (-10000) := by
  decide

set_option maxHeartbeats 12000000 in
set_option maxRecDepth 100000 in
theorem c2_plain47 :
    plainMinimax powZobrist Player.X 1
      ((Game.clone gC2).play_move powZobrist ((4 : ℕ) : ℤ) ((7 : ℕ) : ℤ)).2 false =
      .fin (-10000) := by
  decide

/-- Plain un-pruned minimax on `gC2` at depth 2. -/
theorem c2_plain2 : plainMinimax powZobrist Player.X 2 gC2 true = .fin (-10000) := by
  show plainMinimax powZobrist Player.X (1 + 1) gC2 true = _
  rw [plainMinimax]
  rw [if_neg (by decide)]
  rw [if_pos rfl]
  rw [show gC2.available_moves = [(4, 3), (4, 4), (4, 7)] by decide]
  simp only [List.map_cons, List.map_nil, c2_plain43, c2_plain44, c2_plain47]
  decide

set_option maxHeartbeats 12000000 in
set_option maxRecDepth 100000 in
/-- **C2, counterexample.**  Running `choose`'s iterative deepening on
`gC2` to depth 2: iteration 1 (full window) scores `136/5` and re-seeds
the window to `[-114/5, 386/5]`; iteration 2, searched inside that
aspiration window with the iteration-1 table, returns score `-25`, while
the plain un-pruned minimax at depth 2 scores `-10000` — the windowed
search's score differs from full minimax at the same depth. -/
theorem aspiration_window_score_mismatch_cex :
    minimaxAB powZobrist Player.X 1 gC2 .negInf .posInf true [] =
      .ok (.fin (136 / 5), some (4, 4), tt1C2) ∧
    (Score.fin (136 / 5)).subC 50 = .fin (-(114 / 5)) ∧
    (Score.fin (136 / 5)).addC 50 = .fin (386 / 5) ∧
    minimaxAB powZobrist Player.X 2 gC2 (.fin (-(114 / 5))) (.fin (386 / 5)) true tt1C2 =
      .ok (.fin (-25), some (4, 3), ttFinalC2) ∧
    plainMinimax powZobrist Player.X 2 gC2 true = .fin (-10000) ∧
    Score.fin (-25) ≠ .fin (-10000) :=
  ⟨by decide, by decide, by decide,
   c2_iter2, c2_plain2, by decide⟩

end HyperXO
